import Mathlib

/-!
# Matrix-multiplication kernel of `GeneratedOpenCL.c`

A shallow embedding of the OpenCL kernel
`samples-pack/GPU/src/org/jppf/example/aparapi/GeneratedOpenCL.c`.

* A `__global float *` buffer is a `List α`; the element type `α` stands for
  `float` and only carries `0`, `+` and `*`, about which nothing is assumed
  unless a theorem says so.  The three buffers are distinct objects.
* An `int` is an `Int`; every `int` operation of the source goes through
  `int32`, which faults when the mathematical result leaves the 32-bit signed
  range (signed overflow is undefined in C).
* A buffer access outside the buffer faults.
* A `for` loop is a structurally recursive function on a fuel counter with the
  loop guard of the source tested at every iteration; running out of fuel is a
  fault of its own, so that it can never be taken for a result.
-/

namespace GeneratedOpenCL

/-- Ways in which an execution leaves defined behaviour. -/
inductive Fault where
  | overflow
  | outOfBounds
  | outOfFuel
  deriving DecidableEq, Repr

/-- Largest value of a 32-bit signed `int`. -/
def INT_MAX : Int := 2147483647

/-- Smallest value of a 32-bit signed `int`. -/
def INT_MIN : Int := -2147483648

/-- Result of an `int` operation whose mathematical value is `x`. -/
def int32 (x : Int) : Except Fault Int :=
  if INT_MIN ≤ x ∧ x ≤ INT_MAX then .ok x else .error .overflow

/-- Read `buf[idx]`. -/
def load {α : Type} (buf : List α) (idx : Int) : Except Fault α :=
  if 0 ≤ idx then
    match buf[idx.toNat]? with
    | some v => .ok v
    | none => .error .outOfBounds
  else .error .outOfBounds

/-- Write `buf[idx] = v`. -/
def store {α : Type} (buf : List α) (idx : Int) (v : α) : Except Fault (List α) :=
  if 0 ≤ idx ∧ idx.toNat < buf.length then .ok (buf.set idx.toNat v)
  else .error .outOfBounds

/-- The struct `This` (lines 1-7). -/
structure This (α : Type) where
  kernelMatrixA : List α
  size : Int
  kernelMatrixB : List α
  kernelResults : List α
  passid : Int

/-- Function `get_pass_id` (lines 8-10): the value returned and the context
after the call. -/
def get_pass_id {α : Type} (this : This α) : Int × This α :=
  (this.passid, this)

/-- Index expression `((rowA * this->size) + i)` of line 14. -/
def indexA (size rowA i : Int) : Except Fault Int := do
  let p ← int32 (rowA * size)
  int32 (p + i)

/-- Index expression `((i * this->size) + columnB)` of line 14. -/
def indexB (size i columnB : Int) : Except Fault Int := do
  let p ← int32 (i * size)
  int32 (p + columnB)

/-- Index expression `(columnB * this->size) + rowA` of line 16. -/
def indexResult (size rowA columnB : Int) : Except Fault Int := do
  let p ← int32 (columnB * size)
  int32 (p + rowA)

/-- The loop of lines 13-15, entered with loop variable `i` and accumulator
`sum`. -/
def multiplyLoop {α : Type} [Add α] [Mul α] (this : This α) (rowA columnB : Int) :
    Nat → Int → α → Except Fault α
  | 0, _, _ => .error .outOfFuel
  | fuel + 1, i, sum =>
    if i < this.size then do
      let ia ← indexA this.size rowA i
      let a ← load this.kernelMatrixA ia
      let ib ← indexB this.size i columnB
      let b ← load this.kernelMatrixB ib
      let i1 ← int32 (i + 1)
      multiplyLoop this rowA columnB fuel i1 (sum + a * b)
    else .ok sum

/-- Function `test_AparapiTask$MatrixKernel__multiply` (lines 11-18); the
result is the context after the call. -/
def multiply {α : Type} [Zero α] [Add α] [Mul α] (this : This α) (rowA columnB : Int) :
    Except Fault (This α) := do
  let sum ← multiplyLoop this rowA columnB (this.size.toNat + 1) 0 0
  let ir ← indexResult this.size rowA columnB
  let r ← store this.kernelResults ir sum
  .ok { this with kernelResults := r }

/-- The context built by `run` (lines 26-32). -/
def runContext {α : Type} (kernelMatrixA : List α) (size : Int) (kernelMatrixB : List α)
    (kernelResults : List α) (passid : Int) : This α :=
  { kernelMatrixA := kernelMatrixA, size := size, kernelMatrixB := kernelMatrixB,
    kernelResults := kernelResults, passid := passid }

/-- The loop of lines 35-37, entered with loop variable `colB`. -/
def runLoop {α : Type} [Zero α] [Add α] [Mul α] (rowA : Int) :
    Nat → Int → This α → Except Fault (This α)
  | 0, _, _ => .error .outOfFuel
  | fuel + 1, colB, this =>
    if colB < this.size then do
      let this1 ← multiply this rowA colB
      let colB1 ← int32 (colB + 1)
      runLoop rowA fuel colB1 this1
    else .ok this

/-- Kernel `run` (lines 19-40) for the work-item whose `get_global_id(0)` is
`globalId`; the result is the context, with its buffers, when the work-item
returns. -/
def run {α : Type} [Zero α] [Add α] [Mul α] (kernelMatrixA : List α) (size : Int)
    (kernelMatrixB : List α) (kernelResults : List α) (passid : Int) (globalId : Int) :
    Except Fault (This α) :=
  let this := runContext kernelMatrixA size kernelMatrixB kernelResults passid
  let rowA := globalId
  runLoop rowA (this.size.toNat + 1) 0 this

/-- Work-items executed one after the other, in the order of `order`, each on
the buffers left by the previous one. -/
def launchSeq {α : Type} [Zero α] [Add α] [Mul α] :
    List Int → This α → Except Fault (This α)
  | [], this => .ok this
  | g :: rest, this => do
    let this1 ← run this.kernelMatrixA this.size this.kernelMatrixB this.kernelResults
      this.passid g
    launchSeq rest this1

/-- A full launch: one work-item for each global id `0, 1, ..., N - 1`, in
that order. -/
def launch {α : Type} [Zero α] [Add α] [Mul α] (N : Nat) (this : This α) :
    Except Fault (This α) :=
  launchSeq ((List.range N).map Int.ofNat) this

/-- The sum `Σ_{i < n} f i`, by the usual recursion
`Σ_{i < n + 1} f i = (Σ_{i < n} f i) + f n`. -/
def sumUpTo {α : Type} [Zero α] [Add α] (f : Nat → α) : Nat → α
  | 0 => 0
  | n + 1 => sumUpTo f n + f n

/-- Dot product of row `r` of `A` and column `c` of `B`, both row-major of
dimension `N`. -/
def dot {α : Type} [Zero α] [Add α] [Mul α] (A B : List α) (N r c : Nat) : α :=
  sumUpTo (fun i => A.getD (r * N + i) 0 * B.getD (i * N + c) 0) N

/-- The indices read by `multiply` for row `r` and column `c` stay in the
32-bit range. -/
def LoopSafe (N r c : Nat) : Prop :=
  ∀ i, i < N → r * N + i ≤ 2147483647 ∧ i * N + c ≤ 2147483647

/-- A buffer of `n` zeros. -/
def zeros (n : Nat) : List Int := List.replicate n 0

/-- A chain of calls of `multiply`, one per `(rowA, columnB)` of the list, each
on the context left by the previous one. -/
def multiplyCalls {α : Type} [Zero α] [Add α] [Mul α] :
    List (Int × Int) → This α → Except Fault (This α)
  | [], this => .ok this
  | (rowA, columnB) :: rest, this => do
    let this1 ← multiply this rowA columnB
    multiplyCalls rest this1

/-- The value of `buf[idx]` for an `int` index. -/
def cell {α : Type} [Zero α] (buf : List α) (idx : Int) : α :=
  buf.getD idx.toNat 0

/-- A flat buffer read as a row-major `N × N` matrix. -/
def toMatrix {α : Type} [Zero α] (N : Nat) (buf : List α) : Matrix (Fin N) (Fin N) α :=
  Matrix.of fun r c => buf.getD (r.val * N + c.val) 0

/-- The `N × N` identity matrix as a flat row-major buffer: `1` at `i * N + i`,
`0` elsewhere. -/
def identityBuf (N : Nat) : List Int :=
  (List.range (N * N)).map fun k => if k / N = k % N then 1 else 0

/-- A buffer of `n` ones. -/
def ones (n : Nat) : List Int := List.replicate n 1

/-- What an execution does besides computing: it enters an iteration of the
column loop, reads a cell of `A` or of `B`, or writes a cell of `Result`. -/
inductive Event where
  | column (colB : Int)
  | readA (idx : Int)
  | readB (idx : Int)
  | writeResult (idx : Int)
  deriving DecidableEq, Repr

/-- The loop of lines 13-15 as in `multiplyLoop`, recording after `log` the
reads it makes. -/
def multiplyLoopLog {α : Type} [Add α] [Mul α] (this : This α) (rowA columnB : Int) :
    Nat → Int → α → List Event → Except Fault (α × List Event)
  | 0, _, _, _ => .error .outOfFuel
  | fuel + 1, i, sum, log =>
    if i < this.size then do
      let ia ← indexA this.size rowA i
      let a ← load this.kernelMatrixA ia
      let ib ← indexB this.size i columnB
      let b ← load this.kernelMatrixB ib
      let i1 ← int32 (i + 1)
      multiplyLoopLog this rowA columnB fuel i1 (sum + a * b)
        (log ++ [Event.readA ia, Event.readB ib])
    else .ok (sum, log)

/-- Function `test_AparapiTask$MatrixKernel__multiply` as in `multiply`,
recording after `log` its reads and its write. -/
def multiplyLog {α : Type} [Zero α] [Add α] [Mul α] (this : This α) (rowA columnB : Int)
    (log : List Event) : Except Fault (This α × List Event) := do
  let sl ← multiplyLoopLog this rowA columnB (this.size.toNat + 1) 0 0 log
  let ir ← indexResult this.size rowA columnB
  let r ← store this.kernelResults ir sl.1
  .ok ({ this with kernelResults := r }, sl.2 ++ [Event.writeResult ir])

/-- The loop of lines 35-37 as in `runLoop`, recording after `log` each iteration
entered and the reads and writes of its call of `multiply`. -/
def runLoopLog {α : Type} [Zero α] [Add α] [Mul α] (rowA : Int) :
    Nat → Int → This α → List Event → Except Fault (This α × List Event)
  | 0, _, _, _ => .error .outOfFuel
  | fuel + 1, colB, this, log =>
    if colB < this.size then do
      let tl ← multiplyLog this rowA colB (log ++ [Event.column colB])
      let colB1 ← int32 (colB + 1)
      runLoopLog rowA fuel colB1 tl.1 tl.2
    else .ok (this, log)

/-- Kernel `run` as in `run`, with the record of the iterations, reads and writes
of the work-item. -/
def runLog {α : Type} [Zero α] [Add α] [Mul α] (kernelMatrixA : List α) (size : Int)
    (kernelMatrixB : List α) (kernelResults : List α) (passid : Int) (globalId : Int) :
    Except Fault (This α × List Event) :=
  let this := runContext kernelMatrixA size kernelMatrixB kernelResults passid
  let rowA := globalId
  runLoopLog rowA (this.size.toNat + 1) 0 this []

/-- The index written, for a write event. -/
def Event.writeIndex : Event → Option Int
  | .writeResult idx => some idx
  | _ => none

/-- The indices of `Result` written, in the order of the record. -/
def writes (log : List Event) : List Int := log.filterMap Event.writeIndex

/-- A read or a write recorded at an index of a buffer of `n` cells. -/
def Event.inBounds (n : Nat) : Event → Prop
  | .column _ => True
  | .readA idx => 0 ≤ idx ∧ idx < (n : Int)
  | .readB idx => 0 ≤ idx ∧ idx < (n : Int)
  | .writeResult idx => 0 ≤ idx ∧ idx < (n : Int)

/-- Work-items one after the other as in `launchSeq`, with the records of the
work-items appended in that order after `log`. -/
def launchSeqLog {α : Type} [Zero α] [Add α] [Mul α] :
    List Int → This α → List Event → Except Fault (This α × List Event)
  | [], this, log => .ok (this, log)
  | g :: rest, this, log => do
    let tl ← runLog this.kernelMatrixA this.size this.kernelMatrixB this.kernelResults
      this.passid g
    launchSeqLog rest tl.1 (log ++ tl.2)

/-- A full launch as in `launch`, with its record. -/
def launchLog {α : Type} [Zero α] [Add α] [Mul α] (N : Nat) (this : This α) :
    Except Fault (This α × List Event) :=
  launchSeqLog ((List.range N).map Int.ofNat) this []

/-! ### The arithmetic of `float` on integer values

`float` is IEEE 754 binary32: `+` and `*` return the exact result rounded to the
nearest value with a 24-bit significand, ties to the even significand, and
infinity from `2^128` on; `0 * ∞` and `∞ - ∞` are NaN and NaN propagates.  `F32`
is that arithmetic on the values that are integers, the two infinities and NaN.
The two zeros are not told apart. -/

/-- Number of low bits that do not fit a 24-bit significand. -/
def ulpExponent : Nat → Nat → Nat
  | 0, _ => 0
  | fuel + 1, m => if m < 16777216 then 0 else ulpExponent fuel (m / 2) + 1

/-- Round a natural number to the nearest one with a 24-bit significand, ties
to the even significand. -/
def roundNat (m : Nat) : Nat :=
  if m < 16777216 then m
  else
    let e := ulpExponent 256 m
    let q := m / 2 ^ e
    let r := m % 2 ^ e
    let half := 2 ^ (e - 1)
    if r < half then q * 2 ^ e
    else if r = half ∧ q % 2 = 0 then q * 2 ^ e
    else (q + 1) * 2 ^ e

/-- The binary32 values that are integers, the infinities and NaN.  `finite n`
is a `float` when `n` has a 24-bit significand and `|n| < 2^128`, as every result
of `F32.add` and `F32.mul` has. -/
inductive F32 where
  | finite (n : Int)
  | infinity (negative : Bool)
  | nan
  deriving DecidableEq, Repr

/-- The binary32 value of an exact integer result. -/
def F32.ofInt (n : Int) : F32 :=
  let m := roundNat n.natAbs
  if 340282366920938463463374607431768211456 ≤ m then .infinity (decide (n < 0))
  else if n < 0 then .finite (-(m : Int)) else .finite (m : Int)

/-- Addition of binary32. -/
def F32.add : F32 → F32 → F32
  | .nan, _ => .nan
  | _, .nan => .nan
  | .infinity s, .infinity t => if s = t then .infinity s else .nan
  | .infinity s, .finite _ => .infinity s
  | .finite _, .infinity t => .infinity t
  | .finite a, .finite b => F32.ofInt (a + b)

/-- Multiplication of binary32. -/
def F32.mul : F32 → F32 → F32
  | .nan, _ => .nan
  | _, .nan => .nan
  | .infinity s, .infinity t => .infinity (s != t)
  | .infinity s, .finite b => if b = 0 then .nan else .infinity (s != decide (b < 0))
  | .finite a, .infinity t => if a = 0 then .nan else .infinity (decide (a < 0) != t)
  | .finite a, .finite b => F32.ofInt (a * b)

instance : Zero F32 := ⟨.finite 0⟩

instance : One F32 := ⟨.finite 1⟩

instance : Add F32 := ⟨F32.add⟩

instance : Mul F32 := ⟨F32.mul⟩

/-! ## Elementary facts about the primitives -/

theorem ok_bind {ε α β : Type} (a : α) (f : α → Except ε β) :
    (Except.ok a >>= f) = f a := rfl

theorem error_bind {ε α β : Type} (e : ε) (f : α → Except ε β) :
    (Except.error e >>= f) = Except.error e := rfl

theorem int32_ofNat (k : Nat) (h : k ≤ 2147483647) : int32 (k : Int) = .ok (k : Int) := by
  unfold int32 INT_MIN INT_MAX
  rw [if_pos]
  omega

theorem int32_overflow (k : Nat) (h : 2147483647 < k) :
    int32 (k : Int) = .error .overflow := by
  unfold int32 INT_MIN INT_MAX
  rw [if_neg]
  omega

theorem load_ofNat {α : Type} [Zero α] (buf : List α) (k : Nat) (h : k < buf.length) :
    load buf (k : Int) = .ok (buf.getD k 0) := by
  unfold load
  rw [if_pos (Int.ofNat_nonneg k)]
  simp [List.getD, List.getElem?_eq_getElem h]

theorem load_ofNat_ok {α : Type} (buf : List α) (k : Nat) (h : k < buf.length) :
    ∃ a, load buf (k : Int) = .ok a := by
  unfold load
  rw [if_pos (Int.ofNat_nonneg k), Int.toNat_ofNat, List.getElem?_eq_getElem h]
  exact ⟨_, rfl⟩

theorem store_ofNat {α : Type} (buf : List α) (k : Nat) (v : α) (h : k < buf.length) :
    store buf (k : Int) v = .ok (buf.set k v) := by
  unfold store
  rw [if_pos]
  · simp
  · exact ⟨Int.ofNat_nonneg k, by simpa using h⟩

/-- Below dimension `N`, a flat index `r * N + i` lies inside `N * N`. -/
theorem flat_lt (N r i : Nat) (hr : r < N) (hi : i < N) : r * N + i < N * N := by
  have h : (r + 1) * N ≤ N * N := Nat.mul_le_mul_right N hr
  have h2 : (r + 1) * N = r * N + N := by ring
  omega

theorem sq_le_of_le (N : Nat) (hN : N ≤ 46340) : N * N ≤ 2147395600 := by
  have := Nat.mul_le_mul hN hN
  omega

theorem indexA_ofNat (N r i : Nat) (h : r * N + i ≤ 2147483647) :
    indexA (N : Int) (r : Int) (i : Int) = .ok ((r * N + i : Nat) : Int) := by
  unfold indexA
  have h1 : ((r : Int) * (N : Int)) = ((r * N : Nat) : Int) := by push_cast; ring
  rw [h1, int32_ofNat _ (by omega), ok_bind]
  have h2 : ((r * N : Nat) : Int) + (i : Int) = ((r * N + i : Nat) : Int) := by push_cast; ring
  rw [h2, int32_ofNat _ h]

theorem indexB_ofNat (N i c : Nat) (h : i * N + c ≤ 2147483647) :
    indexB (N : Int) (i : Int) (c : Int) = .ok ((i * N + c : Nat) : Int) :=
  indexA_ofNat N i c h

theorem indexResult_ofNat (N r c : Nat) (h : c * N + r ≤ 2147483647) :
    indexResult (N : Int) (r : Int) (c : Int) = .ok ((c * N + r : Nat) : Int) :=
  indexA_ofNat N c r h

theorem indexA_overflow (N r i : Nat) (h : 2147483647 < r * N + i) :
    indexA (N : Int) (r : Int) (i : Int) = .error .overflow := by
  unfold indexA
  have h1 : ((r : Int) * (N : Int)) = ((r * N : Nat) : Int) := by push_cast; ring
  rw [h1]
  by_cases hp : r * N ≤ 2147483647
  · rw [int32_ofNat _ hp, ok_bind]
    have h2 : ((r * N : Nat) : Int) + (i : Int) = ((r * N + i : Nat) : Int) := by
      push_cast; ring
    rw [h2, int32_overflow _ h]
  · rw [int32_overflow _ (by omega), error_bind]

theorem indexB_overflow (N i c : Nat) (h : 2147483647 < i * N + c) :
    indexB (N : Int) (i : Int) (c : Int) = .error .overflow :=
  indexA_overflow N i c h

theorem indexResult_overflow (N r c : Nat) (h : 2147483647 < c * N + r) :
    indexResult (N : Int) (r : Int) (c : Int) = .error .overflow :=
  indexA_overflow N c r h

/-! ## The accumulation loop -/

theorem loopSafe_of_le (N r c : Nat) (hN : N ≤ 46340) (hr : r < N) (hc : c < N) :
    LoopSafe N r c := by
  intro i hi
  have hsq := sq_le_of_le N hN
  have h1 := flat_lt N r i hr hi
  have h2 := flat_lt N i c hi hc
  omega

theorem multiplyLoop_safe {α : Type} [Zero α] [Add α] [Mul α] (this : This α) (N r c : Nat)
    (hsize : this.size = (N : Int)) (hN : N ≤ 2147483647)
    (hA : this.kernelMatrixA.length = N * N) (hB : this.kernelMatrixB.length = N * N)
    (hr : r < N) (hc : c < N) (hs : LoopSafe N r c) :
    ∀ (k fuel i : Nat), i + k = N → k < fuel →
      multiplyLoop this (r : Int) (c : Int) fuel (i : Int)
          (sumUpTo (fun i => this.kernelMatrixA.getD (r * N + i) 0 *
            this.kernelMatrixB.getD (i * N + c) 0) i) =
        .ok (dot this.kernelMatrixA this.kernelMatrixB N r c) := by
  intro k
  induction k with
  | zero =>
    intro fuel i hi hf
    obtain ⟨fuel, rfl⟩ : ∃ m, fuel = m + 1 := ⟨fuel - 1, by omega⟩
    have : i = N := by omega
    subst this
    unfold multiplyLoop
    rw [if_neg (by rw [hsize]; omega)]
    rfl
  | succ k ih =>
    intro fuel i hi hf
    obtain ⟨fuel, rfl⟩ : ∃ m, fuel = m + 1 := ⟨fuel - 1, by omega⟩
    have hiN : i < N := by omega
    have h1 := flat_lt N r i hr hiN
    have h2 := flat_lt N i c hiN hc
    obtain ⟨h4, h5⟩ := hs i hiN
    unfold multiplyLoop
    rw [if_pos (by rw [hsize]; omega), hsize]
    rw [indexA_ofNat N r i h4, ok_bind, load_ofNat _ _ (by omega), ok_bind,
      indexB_ofNat N i c h5, ok_bind, load_ofNat _ _ (by omega), ok_bind]
    have h3 : ((i : Int) + 1) = ((i + 1 : Nat) : Int) := by push_cast; ring
    rw [h3, int32_ofNat _ (by omega), ok_bind]
    exact ih fuel (i + 1) (by omega) (by omega)

/-- When an index read for row `r` and column `c` leaves the 32-bit range, the
accumulation loop faults. -/
theorem multiplyLoop_overflow {α : Type} [Add α] [Mul α] (this : This α) (N r c : Nat)
    (hsize : this.size = (N : Int)) (hN : N ≤ 2147483647)
    (hA : this.kernelMatrixA.length = N * N) (hB : this.kernelMatrixB.length = N * N)
    (hr : r < N) (hc : c < N) :
    ∀ (k fuel i : Nat) (s : α), i + k = N → k < fuel →
      (∃ i0, i ≤ i0 ∧ i0 < N ∧ ¬ (r * N + i0 ≤ 2147483647 ∧ i0 * N + c ≤ 2147483647)) →
      multiplyLoop this (r : Int) (c : Int) fuel (i : Int) s = .error .overflow := by
  intro k
  induction k with
  | zero =>
    intro fuel i s hi hf hex
    obtain ⟨i0, h1, h2, _⟩ := hex
    omega
  | succ k ih =>
    intro fuel i s hi hf hex
    obtain ⟨fuel, rfl⟩ : ∃ m, fuel = m + 1 := ⟨fuel - 1, by omega⟩
    have hiN : i < N := by omega
    have h1 := flat_lt N r i hr hiN
    have h2 := flat_lt N i c hiN hc
    unfold multiplyLoop
    rw [if_pos (by rw [hsize]; omega), hsize]
    by_cases hA1 : r * N + i ≤ 2147483647
    · rw [indexA_ofNat N r i hA1, ok_bind]
      obtain ⟨a, ha⟩ := load_ofNat_ok this.kernelMatrixA (r * N + i) (by omega)
      rw [ha, ok_bind]
      by_cases hB1 : i * N + c ≤ 2147483647
      · rw [indexB_ofNat N i c hB1, ok_bind]
        obtain ⟨b, hb⟩ := load_ofNat_ok this.kernelMatrixB (i * N + c) (by omega)
        rw [hb, ok_bind]
        have h3 : ((i : Int) + 1) = ((i + 1 : Nat) : Int) := by push_cast; ring
        rw [h3, int32_ofNat _ (by omega), ok_bind]
        apply ih fuel (i + 1) _ (by omega) (by omega)
        obtain ⟨i0, h5, h6, h7⟩ := hex
        refine ⟨i0, ?_, h6, h7⟩
        rcases Nat.eq_or_lt_of_le h5 with h8 | h8
        · subst h8
          exact absurd ⟨hA1, hB1⟩ h7
        · exact h8
      · rw [indexB_overflow N i c (by omega), error_bind]
    · rw [indexA_overflow N r i (by omega), error_bind]

theorem multiply_safe {α : Type} [Zero α] [Add α] [Mul α] (A B R : List α) (p : Int)
    (N r c : Nat) (hN : N ≤ 2147483647) (hA : A.length = N * N) (hB : B.length = N * N)
    (hR : R.length = N * N) (hr : r < N) (hc : c < N) (hs : LoopSafe N r c)
    (hsR : c * N + r ≤ 2147483647) :
    multiply (runContext A (N : Int) B R p) (r : Int) (c : Int) =
      .ok (runContext A (N : Int) B (R.set (c * N + r) (dot A B N r c)) p) := by
  have h1 := flat_lt N c r hc hr
  have hloop := multiplyLoop_safe (runContext A (N : Int) B R p) N r c rfl hN hA hB hr hc hs
    N (N + 1) 0 (by omega) (by omega)
  unfold multiply
  have hfuel : (runContext A (N : Int) B R p).size.toNat + 1 = N + 1 := by
    simp [runContext]
  rw [hfuel]
  have h0 : (0 : Int) = ((0 : Nat) : Int) := rfl
  rw [h0]
  have hs : (0 : α) = sumUpTo (fun i => (runContext A (N : Int) B R p).kernelMatrixA.getD
      (r * N + i) 0 * (runContext A (N : Int) B R p).kernelMatrixB.getD (i * N + c) 0) 0 := rfl
  rw [hs, hloop, ok_bind]
  have hsz : (runContext A (N : Int) B R p).size = (N : Int) := rfl
  rw [hsz, indexResult_ofNat N r c hsR, ok_bind]
  have hRes : (runContext A (N : Int) B R p).kernelResults = R := rfl
  rw [hRes, store_ofNat R _ _ (by omega), ok_bind]
  rfl

theorem multiply_ok {α : Type} [Zero α] [Add α] [Mul α] (A B R : List α) (p : Int)
    (N r c : Nat) (hN : N ≤ 46340) (hA : A.length = N * N) (hB : B.length = N * N)
    (hR : R.length = N * N) (hr : r < N) (hc : c < N) :
    multiply (runContext A (N : Int) B R p) (r : Int) (c : Int) =
      .ok (runContext A (N : Int) B (R.set (c * N + r) (dot A B N r c)) p) := by
  have hsq := sq_le_of_le N hN
  have h1 := flat_lt N c r hc hr
  exact multiply_safe A B R p N r c (by omega) hA hB hR hr hc
    (loopSafe_of_le N r c hN hr hc) (by omega)

/-- When an index of `multiply` leaves the 32-bit range, `multiply` faults. -/
theorem multiply_overflow {α : Type} [Zero α] [Add α] [Mul α] (A B R : List α) (p : Int)
    (N r c : Nat) (hN : N ≤ 2147483647) (hA : A.length = N * N) (hB : B.length = N * N)
    (hr : r < N) (hc : c < N)
    (hu : ¬ (LoopSafe N r c ∧ c * N + r ≤ 2147483647)) :
    multiply (runContext A (N : Int) B R p) (r : Int) (c : Int) = .error .overflow := by
  unfold multiply
  have hfuel : (runContext A (N : Int) B R p).size.toNat + 1 = N + 1 := by
    simp [runContext]
  rw [hfuel]
  have h0 : (0 : Int) = ((0 : Nat) : Int) := rfl
  rw [h0]
  by_cases hs : LoopSafe N r c
  · have hloop := multiplyLoop_safe (runContext A (N : Int) B R p) N r c rfl hN hA hB hr hc hs
      N (N + 1) 0 (by omega) (by omega)
    have hs0 : (0 : α) = sumUpTo (fun i => (runContext A (N : Int) B R p).kernelMatrixA.getD
      (r * N + i) 0 * (runContext A (N : Int) B R p).kernelMatrixB.getD (i * N + c) 0) 0 := rfl
    rw [hs0, hloop, ok_bind]
    have hsz : (runContext A (N : Int) B R p).size = (N : Int) := rfl
    have hov : 2147483647 < c * N + r := by
      by_contra hcon
      exact hu ⟨hs, by omega⟩
    rw [hsz, indexResult_overflow N r c hov, error_bind]
  · have hex : ∃ i0, 0 ≤ i0 ∧ i0 < N ∧
        ¬ (r * N + i0 ≤ 2147483647 ∧ i0 * N + c ≤ 2147483647) := by
      unfold LoopSafe at hs
      push_neg at hs
      obtain ⟨i0, h1, h2⟩ := hs
      exact ⟨i0, Nat.zero_le _, h1, fun h => absurd h.2 (by have := h2 h.1; omega)⟩
    rw [multiplyLoop_overflow (runContext A (N : Int) B R p) N r c rfl hN hA hB hr hc
      N (N + 1) 0 0 (by omega) (by omega) hex, error_bind]

/-- A flat index is `c * N + r` exactly when its quotient and remainder by `N`
are `c` and `r`. -/
theorem flat_eq_iff (N r c q : Nat) (hr : r < N) :
    c * N + r = q ↔ q % N = r ∧ q / N = c := by
  constructor
  · rintro rfl
    constructor
    · rw [Nat.add_comm, Nat.add_mul_mod_self_right, Nat.mod_eq_of_lt hr]
    · rw [Nat.add_comm, Nat.add_mul_div_right _ _ (by omega), Nat.div_eq_of_lt hr]
      omega
  · rintro ⟨h1, h2⟩
    have := Nat.div_add_mod q N
    subst h1 h2
    rw [Nat.mul_comm]
    exact this

/-! ## The column loop and the work-item -/

theorem runLoop_ok {α : Type} [Zero α] [Add α] [Mul α] (A B : List α) (p : Int)
    (N r : Nat) (hN : N ≤ 46340) (hA : A.length = N * N) (hB : B.length = N * N)
    (hr : r < N) :
    ∀ (k fuel j : Nat) (R : List α), R.length = N * N → j + k = N → k < fuel →
      ∃ R1 : List α,
        runLoop (r : Int) fuel (j : Int) (runContext A (N : Int) B R p) =
          .ok (runContext A (N : Int) B R1 p) ∧
        R1.length = N * N ∧
        ∀ q : Nat, R1[q]? =
          if q < N * N ∧ q % N = r ∧ j ≤ q / N then some (dot A B N r (q / N)) else R[q]? := by
  intro k
  induction k with
  | zero =>
    intro fuel j R hR hj hf
    obtain ⟨fuel, rfl⟩ : ∃ m, fuel = m + 1 := ⟨fuel - 1, by omega⟩
    have hjN : j = N := by omega
    subst hjN
    refine ⟨R, ?_, hR, ?_⟩
    · unfold runLoop
      rw [if_neg (by simp [runContext])]
    · intro q
      by_cases hq : q < j * j
      · have : q / j < j := Nat.div_lt_of_lt_mul hq
        rw [if_neg (by omega)]
      · rw [if_neg (by omega)]
  | succ k ih =>
    intro fuel j R hR hj hf
    obtain ⟨fuel, rfl⟩ : ∃ m, fuel = m + 1 := ⟨fuel - 1, by omega⟩
    have hjN : j < N := by omega
    have hflat := flat_lt N j r hjN hr
    obtain ⟨R1, hrun, hlen, hget⟩ := ih fuel (j + 1) (R.set (j * N + r) (dot A B N r j))
      (by simpa using hR) (by omega) (by omega)
    refine ⟨R1, ?_, hlen, ?_⟩
    · unfold runLoop
      have hsz : (runContext A (N : Int) B R p).size = (N : Int) := rfl
      rw [if_pos (by rw [hsz]; omega), multiply_ok A B R p N r j hN hA hB hR hr hjN, ok_bind]
      have h3 : ((j : Int) + 1) = ((j + 1 : Nat) : Int) := by push_cast; ring
      rw [h3, int32_ofNat _ (by omega), ok_bind]
      exact hrun
    · intro q
      rw [hget q, List.getElem?_set]
      have hiff := flat_eq_iff N r j q hr
      by_cases hq : j * N + r = q
      · obtain ⟨hm, hd⟩ := hiff.mp hq
        have c1 : ¬ (q < N * N ∧ q % N = r ∧ j + 1 ≤ q / N) := by omega
        have c2 : q < N * N ∧ q % N = r ∧ j ≤ q / N := ⟨by omega, hm, by omega⟩
        rw [if_neg c1, if_pos hq, if_pos (by omega), if_pos c2, hd]
      · by_cases hc : q < N * N ∧ q % N = r ∧ j ≤ q / N
        · have hne : q / N ≠ j := fun h => hq (hiff.mpr ⟨hc.2.1, h⟩)
          have c1 : q < N * N ∧ q % N = r ∧ j + 1 ≤ q / N := ⟨hc.1, hc.2.1, by omega⟩
          rw [if_pos c1, if_pos hc]
        · have c1 : ¬ (q < N * N ∧ q % N = r ∧ j + 1 ≤ q / N) :=
            fun h => hc ⟨h.1, h.2.1, by omega⟩
          rw [if_neg c1, if_neg hq, if_neg hc]

/-- The work-item of row `r`, within the 32-bit range: it returns, and its
cells of `Result` hold the dot products while every other cell is kept. -/
theorem run_ok {α : Type} [Zero α] [Add α] [Mul α] (A B R : List α) (p : Int)
    (N r : Nat) (hN : N ≤ 46340) (hA : A.length = N * N) (hB : B.length = N * N)
    (hR : R.length = N * N) (hr : r < N) :
    ∃ R1 : List α,
      run A (N : Int) B R p (r : Int) = .ok (runContext A (N : Int) B R1 p) ∧
      R1.length = N * N ∧
      ∀ q : Nat, R1[q]? =
        if q < N * N ∧ q % N = r then some (dot A B N r (q / N)) else R[q]? := by
  obtain ⟨R1, hrun, hlen, hget⟩ := runLoop_ok A B p N r hN hA hB hr N (N + 1) 0 R hR
    (by omega) (by omega)
  refine ⟨R1, ?_, hlen, ?_⟩
  · unfold run
    have hfuel : (runContext A (N : Int) B R p).size.toNat + 1 = N + 1 := by
      simp [runContext]
    simp only [hfuel]
    exact hrun
  · intro q
    rw [hget q]
    simp

/-- When some column of row `r` needs an index outside the 32-bit range, the
column loop faults. -/
theorem runLoop_overflow {α : Type} [Zero α] [Add α] [Mul α] (A B : List α) (p : Int)
    (N r : Nat) (hN : N ≤ 2147483647) (hA : A.length = N * N) (hB : B.length = N * N)
    (hr : r < N) :
    ∀ (k fuel j : Nat) (R : List α), R.length = N * N → j + k = N → k < fuel →
      (∃ c0, j ≤ c0 ∧ c0 < N ∧ ¬ (LoopSafe N r c0 ∧ c0 * N + r ≤ 2147483647)) →
      runLoop (r : Int) fuel (j : Int) (runContext A (N : Int) B R p) =
        .error .overflow := by
  intro k
  induction k with
  | zero =>
    intro fuel j R _ hj _ hex
    obtain ⟨c0, h1, h2, _⟩ := hex
    omega
  | succ k ih =>
    intro fuel j R hR hj hf hex
    obtain ⟨fuel, rfl⟩ : ∃ m, fuel = m + 1 := ⟨fuel - 1, by omega⟩
    have hjN : j < N := by omega
    have hsz : (runContext A (N : Int) B R p).size = (N : Int) := rfl
    unfold runLoop
    rw [if_pos (by rw [hsz]; omega)]
    by_cases hs : LoopSafe N r j ∧ j * N + r ≤ 2147483647
    · rw [multiply_safe A B R p N r j hN hA hB hR hr hjN hs.1 hs.2, ok_bind]
      have h3 : ((j : Int) + 1) = ((j + 1 : Nat) : Int) := by push_cast; ring
      rw [h3, int32_ofNat _ (by omega), ok_bind]
      apply ih fuel (j + 1) _ (by simpa using hR) (by omega) (by omega)
      obtain ⟨c0, h5, h6, h7⟩ := hex
      refine ⟨c0, ?_, h6, h7⟩
      rcases Nat.eq_or_lt_of_le h5 with h8 | h8
      · subst h8
        exact absurd hs h7
      · exact h8
    · rw [multiply_overflow A B R p N r j hN hA hB hr hjN hs, error_bind]

theorem run_overflow {α : Type} [Zero α] [Add α] [Mul α] (A B R : List α) (p : Int)
    (N r : Nat) (hN : N ≤ 2147483647) (hA : A.length = N * N) (hB : B.length = N * N)
    (hR : R.length = N * N) (hr : r < N)
    (hex : ∃ c0, c0 < N ∧ ¬ (LoopSafe N r c0 ∧ c0 * N + r ≤ 2147483647)) :
    run A (N : Int) B R p (r : Int) = .error .overflow := by
  unfold run
  have hfuel : (runContext A (N : Int) B R p).size.toNat + 1 = N + 1 := by
    simp [runContext]
  simp only [hfuel]
  obtain ⟨c0, h1, h2⟩ := hex
  exact runLoop_overflow A B p N r hN hA hB hr N (N + 1) 0 R hR (by omega) (by omega)
    ⟨c0, Nat.zero_le _, h1, h2⟩

/-- Dimension 46341: the last column of any row needs the index `N * N - 1` of
`B`, which is above `INT_MAX`. -/
theorem unsafe_46341 (r : Nat) :
    ∃ c0, c0 < 46341 ∧ ¬ (LoopSafe 46341 r c0 ∧ c0 * 46341 + r ≤ 2147483647) := by
  refine ⟨46340, by omega, ?_⟩
  rintro ⟨h, _⟩
  have := (h 46340 (by omega)).2
  omega

theorem zeros_length (n : Nat) : (zeros n).length = n := by
  unfold zeros
  rw [List.length_replicate]

theorem run_46341 {α : Type} [Zero α] [Add α] [Mul α] (A B R : List α)
    (hA : A.length = 2147488281) (hB : B.length = 2147488281) (hR : R.length = 2147488281)
    (r : Nat) (hr : r < 46341) (p : Int) :
    run A 46341 B R p (r : Int) = .error .overflow := by
  have h := run_overflow A B R p 46341 r (by omega) hA hB hR hr (unsafe_46341 r)
  rw [Nat.cast_ofNat] at h
  exact h

theorem launchSeq_cons_error {α : Type} [Zero α] [Add α] [Mul α] (this : This α) (g : Int)
    (rest : List Int) (e : Fault)
    (h : run this.kernelMatrixA this.size this.kernelMatrixB this.kernelResults this.passid g
      = .error e) :
    launchSeq (g :: rest) this = .error e := by
  unfold launchSeq
  rw [h, error_bind]

theorem launch_pos {α : Type} [Zero α] [Add α] [Mul α] (n : Nat) (this : This α) :
    launch (n + 1) this =
      launchSeq (0 :: (List.map Nat.succ (List.range n)).map Int.ofNat) this := by
  unfold launch
  rw [List.range_succ_eq_map, List.map_cons]
  rfl

/-- Dimension 46341: the first work-item of a full launch already faults. -/
theorem launch_46341 {α : Type} [Zero α] [Add α] [Mul α] (A B R : List α)
    (hA : A.length = 2147488281) (hB : B.length = 2147488281) (hR : R.length = 2147488281)
    (p : Int) :
    launch 46341 (runContext A 46341 B R p) = .error .overflow := by
  have h := launch_pos 46340 (runContext A 46341 B R p)
  have hrun : run A 46341 B R p 0 = .error .overflow :=
    run_46341 A B R hA hB hR 0 (by omega) p
  rw [launchSeq_cons_error (runContext A 46341 B R p) 0 _ .overflow hrun] at h
  exact h

/-! ## What a successful call tells -/

theorem bind_eq_ok {ε α β : Type} (x : Except ε α) (f : α → Except ε β) (v : β)
    (h : (x >>= f) = .ok v) : ∃ a, x = .ok a ∧ f a = .ok v := by
  cases x with
  | error e => cases h
  | ok a => exact ⟨a, rfl, h⟩

theorem int32_eq_ok (x y : Int) (h : int32 x = .ok y) :
    y = x ∧ INT_MIN ≤ x ∧ x ≤ INT_MAX := by
  unfold int32 at h
  by_cases hx : INT_MIN ≤ x ∧ x ≤ INT_MAX
  · rw [if_pos hx] at h
    cases h
    exact ⟨rfl, hx⟩
  · rw [if_neg hx] at h
    cases h

theorem indexA_eq_ok (size rowA i k : Int) (h : indexA size rowA i = .ok k) :
    k = rowA * size + i ∧ INT_MIN ≤ rowA * size ∧ rowA * size ≤ INT_MAX ∧
      INT_MIN ≤ k ∧ k ≤ INT_MAX := by
  unfold indexA at h
  obtain ⟨q, h1, h2⟩ := bind_eq_ok _ _ _ h
  obtain ⟨h3, h4, h5⟩ := int32_eq_ok _ _ h1
  obtain ⟨h6, h7, h8⟩ := int32_eq_ok _ _ h2
  subst h3
  subst h6
  exact ⟨rfl, h4, h5, h7, h8⟩

theorem load_eq_ok {α : Type} [Zero α] (buf : List α) (idx : Int) (a : α)
    (h : load buf idx = .ok a) :
    0 ≤ idx ∧ idx.toNat < buf.length ∧ a = cell buf idx := by
  unfold load at h
  by_cases h0 : 0 ≤ idx
  · rw [if_pos h0] at h
    by_cases hlt : idx.toNat < buf.length
    · rw [List.getElem?_eq_getElem hlt] at h
      cases h
      refine ⟨h0, hlt, ?_⟩
      unfold cell
      simp [List.getD, List.getElem?_eq_getElem hlt]
    · rw [List.getElem?_eq_none (by omega)] at h
      cases h
  · rw [if_neg h0] at h
    cases h

theorem store_eq_ok {α : Type} (buf : List α) (idx : Int) (v : α) (r : List α)
    (h : store buf idx v = .ok r) :
    0 ≤ idx ∧ idx.toNat < buf.length ∧ r = buf.set idx.toNat v := by
  unfold store at h
  by_cases hc : 0 ≤ idx ∧ idx.toNat < buf.length
  · rw [if_pos hc] at h
    cases h
    exact ⟨hc.1, hc.2, rfl⟩
  · rw [if_neg hc] at h
    cases h

/-- A completed accumulation loop returns the left-to-right fold of the
remaining products onto the accumulator. -/
theorem multiplyLoop_eq_ok {α : Type} [Zero α] [Add α] [Mul α] (this : This α)
    (rowA columnB : Int) :
    ∀ (fuel : Nat) (i : Int) (s v : α),
      multiplyLoop this rowA columnB fuel i s = .ok v →
      v = (List.range (this.size - i).toNat).foldl
        (fun sum (k : Nat) => sum +
          cell this.kernelMatrixA (rowA * this.size + (i + k)) *
          cell this.kernelMatrixB ((i + k) * this.size + columnB)) s := by
  intro fuel
  induction fuel with
  | zero =>
    intro i s v h
    unfold multiplyLoop at h
    cases h
  | succ fuel ih =>
    intro i s v h
    unfold multiplyLoop at h
    by_cases hi : i < this.size
    · rw [if_pos hi] at h
      obtain ⟨ia, h1, h⟩ := bind_eq_ok _ _ _ h
      obtain ⟨a, h2, h⟩ := bind_eq_ok _ _ _ h
      obtain ⟨ib, h3, h⟩ := bind_eq_ok _ _ _ h
      obtain ⟨b, h4, h⟩ := bind_eq_ok _ _ _ h
      obtain ⟨i1, h5, h⟩ := bind_eq_ok _ _ _ h
      have e1 := (indexA_eq_ok _ _ _ _ h1).1
      have e2 := (load_eq_ok _ _ _ h2).2.2
      have e3 := (indexA_eq_ok _ _ _ _ h3).1
      have e4 := (load_eq_ok _ _ _ h4).2.2
      have e5 := (int32_eq_ok _ _ h5).1
      subst e1 e3 e5
      subst e2 e4
      rw [ih _ _ _ h]
      have hn : (this.size - i).toNat = (this.size - (i + 1)).toNat + 1 := by omega
      rw [hn, List.range_succ_eq_map, List.foldl_cons, List.foldl_map]
      simp only [Nat.cast_zero, add_zero, Nat.succ_eq_add_one, Nat.cast_add, Nat.cast_one]
      have hf : ∀ k : Nat, i + 1 + (k : Int) = i + ((k : Int) + 1) := fun k => by ring
      simp only [hf]
    · rw [if_neg hi] at h
      cases h
      have hn : (this.size - i).toNat = 0 := by omega
      rw [hn]
      rfl

/-- A completed `multiply` has stored the left-to-right fold at the result
index and changed nothing else. -/
theorem multiply_eq_ok {α : Type} [Zero α] [Add α] [Mul α] (this this1 : This α)
    (rowA columnB : Int) (h : multiply this rowA columnB = .ok this1) :
    0 ≤ columnB * this.size + rowA ∧
    (columnB * this.size + rowA).toNat < this.kernelResults.length ∧
    this1 = runContext this.kernelMatrixA this.size this.kernelMatrixB
      (this.kernelResults.set (columnB * this.size + rowA).toNat
        ((List.range this.size.toNat).foldl
          (fun sum (i : Nat) => sum +
            cell this.kernelMatrixA (rowA * this.size + i) *
            cell this.kernelMatrixB (i * this.size + columnB)) 0))
      this.passid := by
  unfold multiply at h
  obtain ⟨sum, h1, h⟩ := bind_eq_ok _ _ _ h
  obtain ⟨ir, h2, h⟩ := bind_eq_ok _ _ _ h
  obtain ⟨r, h3, h⟩ := bind_eq_ok _ _ _ h
  cases h
  have e1 := multiplyLoop_eq_ok this rowA columnB _ _ _ _ h1
  have e2 := (indexA_eq_ok _ _ _ _ h2).1
  obtain ⟨e3, e4, e5⟩ := store_eq_ok _ _ _ _ h3
  subst e2
  simp only [sub_zero, zero_add] at e1
  subst e1
  subst e5
  exact ⟨e3, e4, rfl⟩

/-! ## Launches -/

theorem launchSeq_ok {α : Type} [Zero α] [Add α] [Mul α] (A B : List α) (p : Int)
    (N : Nat) (hN : N ≤ 46340) (hA : A.length = N * N) (hB : B.length = N * N) :
    ∀ (order : List Nat) (R : List α), R.length = N * N → (∀ r ∈ order, r < N) →
      ∃ R1 : List α,
        launchSeq (order.map Int.ofNat) (runContext A (N : Int) B R p) =
          .ok (runContext A (N : Int) B R1 p) ∧
        R1.length = N * N ∧
        ∀ q : Nat, R1[q]? =
          if q < N * N ∧ q % N ∈ order then some (dot A B N (q % N) (q / N)) else R[q]? := by
  intro order
  induction order with
  | nil =>
    intro R hR _
    exact ⟨R, rfl, hR, fun q => by simp⟩
  | cons r rest ih =>
    intro R hR hmem
    obtain ⟨R1, hrun, hlen1, hget1⟩ := run_ok A B R p N r hN hA hB hR
      (hmem r (List.mem_cons_self r rest))
    obtain ⟨R2, hseq, hlen2, hget2⟩ := ih R1 hlen1
      (fun x hx => hmem x (List.mem_cons_of_mem r hx))
    refine ⟨R2, ?_, hlen2, ?_⟩
    · rw [List.map_cons]
      unfold launchSeq
      have hrun1 : run (runContext A (N : Int) B R p).kernelMatrixA
          (runContext A (N : Int) B R p).size (runContext A (N : Int) B R p).kernelMatrixB
          (runContext A (N : Int) B R p).kernelResults (runContext A (N : Int) B R p).passid
          (Int.ofNat r) = .ok (runContext A (N : Int) B R1 p) := hrun
      rw [hrun1, ok_bind]
      exact hseq
    · intro q
      rw [hget2 q, hget1 q]
      by_cases h1 : q < N * N ∧ q % N ∈ rest
      · rw [if_pos h1, if_pos ⟨h1.1, List.mem_cons_of_mem r h1.2⟩]
      · rw [if_neg h1]
        by_cases h2 : q < N * N ∧ q % N = r
        · rw [if_pos h2, if_pos ⟨h2.1, by rw [h2.2]; exact List.mem_cons_self r rest⟩, h2.2]
        · rw [if_neg h2, if_neg]
          rintro ⟨h3, h4⟩
          rcases List.mem_cons.mp h4 with h5 | h5
          · exact h2 ⟨h3, h5⟩
          · exact h1 ⟨h3, h5⟩

/-- A sequential launch over an order that names every row, within the 32-bit
range: it returns and every cell of `Result` holds its dot product. -/
theorem launchSeq_all {α : Type} [Zero α] [Add α] [Mul α] (A B R : List α) (p : Int)
    (N : Nat) (hN : N ≤ 46340) (hA : A.length = N * N) (hB : B.length = N * N)
    (hR : R.length = N * N) (order : List Nat) (hlt : ∀ r ∈ order, r < N)
    (hall : ∀ r, r < N → r ∈ order) :
    ∃ R1 : List α,
      launchSeq (order.map Int.ofNat) (runContext A (N : Int) B R p) =
        .ok (runContext A (N : Int) B R1 p) ∧
      R1.length = N * N ∧
      ∀ q : Nat, q < N * N → R1[q]? = some (dot A B N (q % N) (q / N)) := by
  obtain ⟨R1, hseq, hlen, hget⟩ := launchSeq_ok A B p N hN hA hB order R hR hlt
  refine ⟨R1, hseq, hlen, ?_⟩
  intro q hq
  have hNpos : 0 < N := by
    rcases Nat.eq_zero_or_pos N with h | h
    · subst h; omega
    · exact h
  rw [hget q, if_pos ⟨hq, hall _ (Nat.mod_lt q hNpos)⟩]

theorem launch_ok {α : Type} [Zero α] [Add α] [Mul α] (A B R : List α) (p : Int)
    (N : Nat) (hN : N ≤ 46340) (hA : A.length = N * N) (hB : B.length = N * N)
    (hR : R.length = N * N) :
    ∃ R1 : List α,
      launch N (runContext A (N : Int) B R p) = .ok (runContext A (N : Int) B R1 p) ∧
      R1.length = N * N ∧
      ∀ q : Nat, q < N * N → R1[q]? = some (dot A B N (q % N) (q / N)) :=
  launchSeq_all A B R p N hN hA hB hR (List.range N)
    (fun _ h => List.mem_range.mp h) (fun _ h => List.mem_range.mpr h)

/-- In a commutative additive monoid `sumUpTo` is the finite sum. -/
theorem sumUpTo_eq_sum {α : Type} [AddCommMonoid α] (f : Nat → α) (n : Nat) :
    sumUpTo f n = ∑ i in Finset.range n, f i := by
  induction n with
  | zero => rfl
  | succ n ih => rw [Finset.sum_range_succ, ← ih]; rfl

/-! ## The claims -/

/-- C1, amended: for a dimension `N ≤ 46340`, a row `rowA < N` and buffers of
length `N * N`, the work-item of `rowA` returns, and afterwards every column
`colB < N` has `Result[colB * N + rowA] = Σ_{i < N} A[rowA * N + i] * B[i * N + colB]`. -/
theorem run_row_cells {α : Type} [Zero α] [Add α] [Mul α] (N rowA : Nat) (A B R : List α)
    (p : Int) (hN : N ≤ 46340) (hrow : rowA < N) (hA : A.length = N * N)
    (hB : B.length = N * N) (hR : R.length = N * N) :
    ∃ R1 : List α,
      run A (N : Int) B R p (rowA : Int) = .ok (runContext A (N : Int) B R1 p) ∧
      ∀ colB, colB < N → R1[colB * N + rowA]? =
        some (sumUpTo (fun i => A.getD (rowA * N + i) 0 * B.getD (i * N + colB) 0) N) := by
  obtain ⟨R1, hrun, _, hget⟩ := run_ok A B R p N rowA hN hA hB hR hrow
  refine ⟨R1, hrun, ?_⟩
  intro colB hcol
  obtain ⟨h1, h2⟩ := (flat_eq_iff N rowA colB _ hrow).mp rfl
  rw [hget, if_pos ⟨flat_lt N colB rowA hcol hrow, h1⟩, h2]
  rfl

/-- C1, witness: dimension 2, row 1. -/
theorem run_row_cells_witness :
    (2 ≤ 46340 ∧ 1 < 2 ∧ ([1, 2, 3, 4] : List Int).length = 2 * 2 ∧
      ([5, 6, 7, 8] : List Int).length = 2 * 2 ∧ ([0, 0, 0, 0] : List Int).length = 2 * 2) ∧
    ∃ R1 : List Int,
      run [1, 2, 3, 4] ((2 : Nat) : Int) [5, 6, 7, 8] [0, 0, 0, 0] 7 ((1 : Nat) : Int) =
        .ok (runContext [1, 2, 3, 4] ((2 : Nat) : Int) [5, 6, 7, 8] R1 7) ∧
      ∀ colB, colB < 2 → R1[colB * 2 + 1]? =
        some (sumUpTo (fun i => ([1, 2, 3, 4] : List Int).getD (1 * 2 + i) 0 *
          ([5, 6, 7, 8] : List Int).getD (i * 2 + colB) 0) 2) :=
  ⟨⟨by decide, by decide, rfl, rfl, rfl⟩,
    run_row_cells 2 1 [1, 2, 3, 4] [5, 6, 7, 8] [0, 0, 0, 0] 7 (by decide) (by decide)
      rfl rfl rfl⟩

/-- C1 as stated fails at `N = 46341`: with buffers of `N * N` zeros the
work-item of row 46340 faults on a 32-bit overflow of `rowA * size + i`, so no
`Result` with the claimed cells is produced. -/
theorem run_row_cells_fails_46341 :
    run (zeros 2147488281) 46341 (zeros 2147488281) (zeros 2147488281) 0 46340 =
      .error .overflow ∧
    ¬ ∃ R1 : List Int,
      run (zeros 2147488281) 46341 (zeros 2147488281) (zeros 2147488281) 0 46340 =
        .ok (runContext (zeros 2147488281) 46341 (zeros 2147488281) R1 0) ∧
      ∀ colB, colB < 46341 → R1[colB * 46341 + 46340]? =
        some (sumUpTo (fun i => (zeros 2147488281).getD (46340 * 46341 + i) 0 *
          (zeros 2147488281).getD (i * 46341 + colB) 0) 46341) := by
  have h : run (zeros 2147488281) 46341 (zeros 2147488281) (zeros 2147488281) 0 46340 =
      .error .overflow := by
    have h1 := run_46341 (zeros 2147488281) (zeros 2147488281) (zeros 2147488281)
      (zeros_length _) (zeros_length _) (zeros_length _) 46340 (by omega) 0
    rw [Nat.cast_ofNat] at h1
    exact h1
  refine ⟨h, ?_⟩
  rintro ⟨R1, h1, _⟩
  rw [h] at h1
  cases h1

/-- C4, amended: for a dimension `N ≤ 46340`, buffers of length `N * N` and any
permutation `order` of the rows `0, ..., N - 1`, running the work-items one
after the other in that order returns the same final `Result` as running them
in the order `0, 1, ..., N - 1`. -/
theorem launch_order_independent {α : Type} [Zero α] [Add α] [Mul α] (N : Nat)
    (A B R : List α) (p : Int) (order : List Nat) (hN : N ≤ 46340)
    (hA : A.length = N * N) (hB : B.length = N * N) (hR : R.length = N * N)
    (hperm : order.Perm (List.range N)) :
    ∃ R1 : List α,
      launchSeq (order.map Int.ofNat) (runContext A (N : Int) B R p) =
        .ok (runContext A (N : Int) B R1 p) ∧
      launch N (runContext A (N : Int) B R p) = .ok (runContext A (N : Int) B R1 p) := by
  obtain ⟨R1, h1, hlen1, hget1⟩ := launchSeq_all A B R p N hN hA hB hR order
    (fun r h => List.mem_range.mp (hperm.mem_iff.mp h))
    (fun r h => hperm.mem_iff.mpr (List.mem_range.mpr h))
  obtain ⟨R2, h2, hlen2, hget2⟩ := launch_ok A B R p N hN hA hB hR
  have heq : R2 = R1 := by
    apply List.ext_getElem?
    intro q
    by_cases hq : q < N * N
    · rw [hget1 q hq, hget2 q hq]
    · rw [List.getElem?_eq_none (by omega), List.getElem?_eq_none (by omega)]
  subst heq
  exact ⟨R2, h1, h2⟩

/-- C4, witness: dimension 2, rows in the order 1, 0. -/
theorem launch_order_independent_witness :
    (2 ≤ 46340 ∧ ([1, 2, 3, 4] : List Int).length = 2 * 2 ∧
      ([5, 6, 7, 8] : List Int).length = 2 * 2 ∧ ([0, 0, 0, 0] : List Int).length = 2 * 2 ∧
      ([1, 0] : List Nat).Perm (List.range 2)) ∧
    ∃ R1 : List Int,
      launchSeq (([1, 0] : List Nat).map Int.ofNat)
          (runContext [1, 2, 3, 4] ((2 : Nat) : Int) [5, 6, 7, 8] [0, 0, 0, 0] 7) =
        .ok (runContext [1, 2, 3, 4] ((2 : Nat) : Int) [5, 6, 7, 8] R1 7) ∧
      launch 2 (runContext [1, 2, 3, 4] ((2 : Nat) : Int) [5, 6, 7, 8] [0, 0, 0, 0] 7) =
        .ok (runContext [1, 2, 3, 4] ((2 : Nat) : Int) [5, 6, 7, 8] R1 7) :=
  ⟨⟨by decide, rfl, rfl, rfl, List.Perm.swap 0 1 []⟩,
    launch_order_independent 2 [1, 2, 3, 4] [5, 6, 7, 8] [0, 0, 0, 0] 7 [1, 0] (by decide)
      rfl rfl rfl (List.Perm.swap 0 1 [])⟩

/-- C4 as stated fails at `N = 46341`: already for the identity permutation, with
buffers of `N * N` zeros, the sequence of work-items faults on a 32-bit
overflow and ends with no final `Result`. -/
theorem launch_order_fails_46341 :
    (List.range 46341).Perm (List.range 46341) ∧
    ¬ ∃ R1 : List Int,
      launchSeq ((List.range 46341).map Int.ofNat)
          (runContext (zeros 2147488281) 46341 (zeros 2147488281) (zeros 2147488281) 0) =
        .ok (runContext (zeros 2147488281) 46341 (zeros 2147488281) R1 0) ∧
      launch 46341 (runContext (zeros 2147488281) 46341 (zeros 2147488281)
          (zeros 2147488281) 0) =
        .ok (runContext (zeros 2147488281) 46341 (zeros 2147488281) R1 0) := by
  refine ⟨List.Perm.refl _, ?_⟩
  rintro ⟨R1, _, h1⟩
  rw [launch_46341 (zeros 2147488281) (zeros 2147488281) (zeros 2147488281)
    (zeros_length _) (zeros_length _) (zeros_length _) 0] at h1
  cases h1

/-- C5, amended: for a dimension `N ≤ 46340`, a row `rowA < N` and buffers of
length `N * N`, the work-item of `rowA` returns having changed no cell of
`Result` other than the cells `colB * N + rowA` with `colB < N`; in particular
every cell `colB1 * N + rowA1` of another row `rowA1` is as before. -/
theorem run_frame {α : Type} [Zero α] [Add α] [Mul α] (N rowA : Nat) (A B R : List α)
    (p : Int) (hN : N ≤ 46340) (hrow : rowA < N) (hA : A.length = N * N)
    (hB : B.length = N * N) (hR : R.length = N * N) :
    ∃ R1 : List α,
      run A (N : Int) B R p (rowA : Int) = .ok (runContext A (N : Int) B R1 p) ∧
      R1.length = R.length ∧
      (∀ q, (∀ colB, colB < N → q ≠ colB * N + rowA) → R1[q]? = R[q]?) ∧
      (∀ rowA1 colB1, rowA1 < N → colB1 < N → rowA1 ≠ rowA →
        R1[colB1 * N + rowA1]? = R[colB1 * N + rowA1]?) := by
  obtain ⟨R1, hrun, hlen, hget⟩ := run_ok A B R p N rowA hN hA hB hR hrow
  have hframe : ∀ q, (∀ colB, colB < N → q ≠ colB * N + rowA) → R1[q]? = R[q]? := by
    intro q hq
    rw [hget q, if_neg]
    rintro ⟨h1, h2⟩
    exact hq (q / N) (Nat.div_lt_of_lt_mul h1)
      ((flat_eq_iff N rowA (q / N) q hrow).mpr ⟨h2, rfl⟩).symm
  refine ⟨R1, hrun, by rw [hlen, hR], hframe, ?_⟩
  intro rowA1 colB1 hr1 _ hne
  apply hframe
  intro colB _ h
  obtain ⟨h2, _⟩ := (flat_eq_iff N rowA1 colB1 _ hr1).mp rfl
  obtain ⟨h4, _⟩ := (flat_eq_iff N rowA colB _ hrow).mp h.symm
  omega

/-- C5, witness: dimension 2, row 0. -/
theorem run_frame_witness :
    (2 ≤ 46340 ∧ 0 < 2 ∧ ([1, 2, 3, 4] : List Int).length = 2 * 2 ∧
      ([5, 6, 7, 8] : List Int).length = 2 * 2 ∧ ([9, 9, 9, 9] : List Int).length = 2 * 2) ∧
    ∃ R1 : List Int,
      run [1, 2, 3, 4] ((2 : Nat) : Int) [5, 6, 7, 8] [9, 9, 9, 9] 7 ((0 : Nat) : Int) =
        .ok (runContext [1, 2, 3, 4] ((2 : Nat) : Int) [5, 6, 7, 8] R1 7) ∧
      R1.length = ([9, 9, 9, 9] : List Int).length ∧
      (∀ q, (∀ colB, colB < 2 → q ≠ colB * 2 + 0) → R1[q]? = ([9, 9, 9, 9] : List Int)[q]?) ∧
      (∀ rowA1 colB1, rowA1 < 2 → colB1 < 2 → rowA1 ≠ 0 →
        R1[colB1 * 2 + rowA1]? = ([9, 9, 9, 9] : List Int)[colB1 * 2 + rowA1]?) :=
  ⟨⟨by decide, by decide, rfl, rfl, rfl⟩,
    run_frame 2 0 [1, 2, 3, 4] [5, 6, 7, 8] [9, 9, 9, 9] 7 (by decide) (by decide)
      rfl rfl rfl⟩

/-- C5 as stated fails at `N = 46341`: with buffers of `N * N` zeros the
work-item of row 0 faults on a 32-bit overflow of `i * size + columnB`; from
there on the behaviour is undefined and no final `Result` with the other rows
kept is produced. -/
theorem run_frame_fails_46341 :
    run (zeros 2147488281) 46341 (zeros 2147488281) (zeros 2147488281) 0 0 =
      .error .overflow ∧
    ¬ ∃ R1 : List Int,
      run (zeros 2147488281) 46341 (zeros 2147488281) (zeros 2147488281) 0 0 =
        .ok (runContext (zeros 2147488281) 46341 (zeros 2147488281) R1 0) ∧
      ∀ rowA1 colB1, rowA1 < 46341 → colB1 < 46341 → rowA1 ≠ 0 →
        R1[colB1 * 46341 + rowA1]? = (zeros 2147488281)[colB1 * 46341 + rowA1]? := by
  have h : run (zeros 2147488281) 46341 (zeros 2147488281) (zeros 2147488281) 0 0 =
      .error .overflow :=
    run_46341 (zeros 2147488281) (zeros 2147488281) (zeros 2147488281)
      (zeros_length _) (zeros_length _) (zeros_length _) 0 (by omega) 0
  refine ⟨h, ?_⟩
  rintro ⟨R1, h1, _⟩
  rw [h] at h1
  cases h1

theorem identityBuf_length (N : Nat) : (identityBuf N).length = N * N := by
  unfold identityBuf
  rw [List.length_map, List.length_range]

theorem identityBuf_spec (N i j : Nat) (hi : i < N) (hj : j < N) :
    (identityBuf N)[i * N + j]? = some (if i = j then 1 else 0) := by
  unfold identityBuf
  obtain ⟨h1, h2⟩ := (flat_eq_iff N j i _ hj).mp rfl
  rw [List.getElem?_map, List.getElem?_range (flat_lt N i j hi hj)]
  simp only [Option.map_some', h1, h2]

/-- The left-to-right fold over `0, ..., n - 1` is `sumUpTo`. -/
theorem foldl_range_eq_sumUpTo {α : Type} [Zero α] [Add α] (f : Nat → α) (n : Nat) :
    (List.range n).foldl (fun sum i => sum + f i) 0 = sumUpTo f n := by
  induction n with
  | zero => rfl
  | succ n ih =>
    rw [List.range_succ, List.foldl_append, ih]
    rfl

/-- C8: whatever `size`, `rowA` and `columnB` are, a call of `multiply` that
returns has stored, at index `columnB * size + rowA`, the fold
`((0 + A[rowA*size+0] * B[0*size+columnB]) + ...) + A[rowA*size+size-1] * B[(size-1)*size+columnB]`
taken from the left over `i = 0, ..., size - 1`, with the running sum as left
operand; and within a dimension `N ≤ 46340`, on buffers of length `N * N`, the
call does return with that value stored.  Nothing is assumed of `0`, `+`, `*`. -/
theorem multiply_stores_left_fold {α : Type} [Zero α] [Add α] [Mul α] :
    (∀ (this this1 : This α) (rowA columnB : Int),
      multiply this rowA columnB = .ok this1 →
      this1.kernelResults =
        this.kernelResults.set (columnB * this.size + rowA).toNat
          ((List.range this.size.toNat).foldl
            (fun sum (i : Nat) => sum +
              cell this.kernelMatrixA (rowA * this.size + i) *
              cell this.kernelMatrixB (i * this.size + columnB)) 0)) ∧
    (∀ (N rowA colB : Nat) (A B R : List α) (p : Int),
      N ≤ 46340 → rowA < N → colB < N →
      A.length = N * N → B.length = N * N → R.length = N * N →
      multiply (runContext A (N : Int) B R p) (rowA : Int) (colB : Int) =
        .ok (runContext A (N : Int) B
          (R.set (colB * N + rowA)
            ((List.range N).foldl
              (fun sum i => sum + A.getD (rowA * N + i) 0 * B.getD (i * N + colB) 0) 0))
          p)) := by
  constructor
  · intro this this1 rowA columnB h
    obtain ⟨_, _, h3⟩ := multiply_eq_ok this this1 rowA columnB h
    rw [h3]
    rfl
  · intro N rowA colB A B R p hN hr hc hA hB hR
    rw [multiply_ok A B R p N rowA colB hN hA hB hR hr hc, foldl_range_eq_sumUpTo]
    rfl

/-- C8, witness: dimension 2, row 1, column 0, where the fold is
`(0 + 3 * 5) + 4 * 7 = 43`. -/
theorem multiply_stores_left_fold_witness :
    (multiply (runContext [1, 2, 3, 4] 2 [5, 6, 7, 8] [0, 0, 0, 0] 7 : This Int) 1 0 =
        .ok (runContext [1, 2, 3, 4] 2 [5, 6, 7, 8] [0, 43, 0, 0] 7 : This Int) ∧
      (runContext [1, 2, 3, 4] 2 [5, 6, 7, 8] [0, 43, 0, 0] 7 : This Int).kernelResults =
        (runContext [1, 2, 3, 4] 2 [5, 6, 7, 8] [0, 0, 0, 0] 7 : This Int).kernelResults.set
          ((0 : Int) * (runContext [1, 2, 3, 4] 2 [5, 6, 7, 8] [0, 0, 0, 0] 7 : This Int).size + 1).toNat
          ((List.range (runContext [1, 2, 3, 4] 2 [5, 6, 7, 8] [0, 0, 0, 0] 7 : This Int).size.toNat).foldl
            (fun sum (i : Nat) => sum +
              cell (runContext [1, 2, 3, 4] 2 [5, 6, 7, 8] [0, 0, 0, 0] 7 : This Int).kernelMatrixA
                ((1 : Int) * (runContext [1, 2, 3, 4] 2 [5, 6, 7, 8] [0, 0, 0, 0] 7 : This Int).size + i) *
              cell (runContext [1, 2, 3, 4] 2 [5, 6, 7, 8] [0, 0, 0, 0] 7 : This Int).kernelMatrixB
                (i * (runContext [1, 2, 3, 4] 2 [5, 6, 7, 8] [0, 0, 0, 0] 7 : This Int).size + 0)) 0)) ∧
    ((2 ≤ 46340 ∧ 1 < 2 ∧ 0 < 2 ∧ ([1, 2, 3, 4] : List Int).length = 2 * 2 ∧
      ([5, 6, 7, 8] : List Int).length = 2 * 2 ∧ ([0, 0, 0, 0] : List Int).length = 2 * 2) ∧
      multiply (runContext [1, 2, 3, 4] ((2 : Nat) : Int) [5, 6, 7, 8] [0, 0, 0, 0] 7)
          ((1 : Nat) : Int) ((0 : Nat) : Int) =
        .ok (runContext [1, 2, 3, 4] ((2 : Nat) : Int) [5, 6, 7, 8]
          (([0, 0, 0, 0] : List Int).set (0 * 2 + 1)
            ((List.range 2).foldl
              (fun sum i => sum + ([1, 2, 3, 4] : List Int).getD (1 * 2 + i) 0 *
                ([5, 6, 7, 8] : List Int).getD (i * 2 + 0) 0) 0))
          7)) :=
  ⟨⟨rfl, multiply_stores_left_fold.1 (runContext [1, 2, 3, 4] 2 [5, 6, 7, 8] [0, 0, 0, 0] 7 : This Int)
      (runContext [1, 2, 3, 4] 2 [5, 6, 7, 8] [0, 43, 0, 0] 7 : This Int) 1 0 (by rfl)⟩,
    ⟨by decide, by decide, by decide, rfl, rfl, rfl⟩,
    multiply_stores_left_fold.2 2 1 0 [1, 2, 3, 4] [5, 6, 7, 8] [0, 0, 0, 0] 7
      (by decide) (by decide) (by decide) rfl rfl rfl⟩

/-- A chain of `multiply` calls that returns has kept every field of the
context other than `kernelResults`. -/
theorem multiplyCalls_eq_ok {α : Type} [Zero α] [Add α] [Mul α] :
    ∀ (calls : List (Int × Int)) (this this1 : This α),
      multiplyCalls calls this = .ok this1 →
      this1.kernelMatrixA = this.kernelMatrixA ∧ this1.size = this.size ∧
        this1.kernelMatrixB = this.kernelMatrixB ∧ this1.passid = this.passid := by
  intro calls
  induction calls with
  | nil =>
    intro this this1 h
    unfold multiplyCalls at h
    cases h
    exact ⟨rfl, rfl, rfl, rfl⟩
  | cons rc rest ih =>
    intro this this1 h
    obtain ⟨rowA, columnB⟩ := rc
    unfold multiplyCalls at h
    obtain ⟨this2, h1, h2⟩ := bind_eq_ok _ _ _ h
    obtain ⟨_, _, h3⟩ := multiply_eq_ok this this2 rowA columnB h1
    obtain ⟨e1, e2, e3, e4⟩ := ih this2 this1 h2
    rw [e1, e2, e3, e4, h3]
    exact ⟨rfl, rfl, rfl, rfl⟩

/-- C9: `get_pass_id` on the context built by `run` from pass id `p` returns
`p`; it returns `p` again on the context left by any chain of `multiply` calls,
whatever their `rowA` and `columnB`; and `get_pass_id` leaves every context,
buffers included, as it found it. -/
theorem get_pass_id_constant {α : Type} [Zero α] [Add α] [Mul α] (A B R : List α)
    (size p : Int) (calls : List (Int × Int)) (this1 : This α)
    (h : multiplyCalls calls (runContext A size B R p) = .ok this1) :
    (get_pass_id (runContext A size B R p)).1 = p ∧
    (get_pass_id this1).1 = p ∧
    ∀ this : This α, (get_pass_id this).2 = this := by
  obtain ⟨_, _, _, h4⟩ := multiplyCalls_eq_ok calls _ _ h
  exact ⟨rfl, h4, fun _ => rfl⟩

/-- C9, witness: two `multiply` calls in dimension 2, pass id 7. -/
theorem get_pass_id_constant_witness :
    multiplyCalls [(0, 0), (1, 1)] (runContext [1, 2, 3, 4] 2 [5, 6, 7, 8] [0, 0, 0, 0] 7 : This Int) =
      .ok (runContext [1, 2, 3, 4] 2 [5, 6, 7, 8] [19, 0, 0, 50] 7 : This Int) ∧
    (get_pass_id (runContext [1, 2, 3, 4] 2 [5, 6, 7, 8] [0, 0, 0, 0] 7 : This Int)).1 = 7 ∧
    (get_pass_id (runContext [1, 2, 3, 4] 2 [5, 6, 7, 8] [19, 0, 0, 50] 7 : This Int)).1 = 7 ∧
    ∀ this : This Int, (get_pass_id this).2 = this :=
  ⟨rfl, get_pass_id_constant [1, 2, 3, 4] [5, 6, 7, 8] [0, 0, 0, 0] 2 7 [(0, 0), (1, 1)]
    (runContext [1, 2, 3, 4] 2 [5, 6, 7, 8] [19, 0, 0, 50] 7 : This Int) (by rfl)⟩

/-- C10, amended: for a dimension `N ≤ 46340`, `A`, `B` of length `N * N` and any
two initial `Result` buffers of length `N * N`, the two full launches return
with the same final `Result`. -/
theorem launch_ignores_prior_result {α : Type} [Zero α] [Add α] [Mul α] (N : Nat)
    (A B Ra Rb : List α) (p : Int) (hN : N ≤ 46340) (hA : A.length = N * N)
    (hB : B.length = N * N) (hRa : Ra.length = N * N) (hRb : Rb.length = N * N) :
    ∃ R1 : List α,
      launch N (runContext A (N : Int) B Ra p) = .ok (runContext A (N : Int) B R1 p) ∧
      launch N (runContext A (N : Int) B Rb p) = .ok (runContext A (N : Int) B R1 p) := by
  obtain ⟨R1, h1, hlen1, hget1⟩ := launch_ok A B Ra p N hN hA hB hRa
  obtain ⟨R2, h2, hlen2, hget2⟩ := launch_ok A B Rb p N hN hA hB hRb
  have heq : R2 = R1 := by
    apply List.ext_getElem?
    intro q
    by_cases hq : q < N * N
    · rw [hget1 q hq, hget2 q hq]
    · rw [List.getElem?_eq_none (by omega), List.getElem?_eq_none (by omega)]
  subst heq
  exact ⟨R2, h1, h2⟩

/-- C10, witness: dimension 2, from `[0, 0, 0, 0]` and from `[9, 8, 7, 6]`. -/
theorem launch_ignores_prior_result_witness :
    (2 ≤ 46340 ∧ ([1, 2, 3, 4] : List Int).length = 2 * 2 ∧
      ([5, 6, 7, 8] : List Int).length = 2 * 2 ∧ ([0, 0, 0, 0] : List Int).length = 2 * 2 ∧
      ([9, 8, 7, 6] : List Int).length = 2 * 2) ∧
    ∃ R1 : List Int,
      launch 2 (runContext [1, 2, 3, 4] ((2 : Nat) : Int) [5, 6, 7, 8] [0, 0, 0, 0] 7) =
        .ok (runContext [1, 2, 3, 4] ((2 : Nat) : Int) [5, 6, 7, 8] R1 7) ∧
      launch 2 (runContext [1, 2, 3, 4] ((2 : Nat) : Int) [5, 6, 7, 8] [9, 8, 7, 6] 7) =
        .ok (runContext [1, 2, 3, 4] ((2 : Nat) : Int) [5, 6, 7, 8] R1 7) :=
  ⟨⟨by decide, rfl, rfl, rfl, rfl⟩,
    launch_ignores_prior_result 2 [1, 2, 3, 4] [5, 6, 7, 8] [0, 0, 0, 0] [9, 8, 7, 6] 7
      (by decide) rfl rfl rfl rfl⟩

/-- C10 as stated fails at `N = 46341`: started from `N * N` zeros or from
`N * N` ones, the full launch faults on a 32-bit overflow, so neither ends with
a `Result` buffer. -/
theorem launch_ignores_prior_result_fails_46341 :
    ((zeros 2147488281).length = 46341 * 46341 ∧ (ones 2147488281).length = 46341 * 46341) ∧
    ¬ ∃ R1 : List Int,
      launch 46341 (runContext (zeros 2147488281) 46341 (zeros 2147488281)
          (zeros 2147488281) 0) =
        .ok (runContext (zeros 2147488281) 46341 (zeros 2147488281) R1 0) ∧
      launch 46341 (runContext (zeros 2147488281) 46341 (zeros 2147488281)
          (ones 2147488281) 0) =
        .ok (runContext (zeros 2147488281) 46341 (zeros 2147488281) R1 0) := by
  have hones : (ones 2147488281).length = 2147488281 := by
    unfold ones
    rw [List.length_replicate]
  refine ⟨⟨zeros_length _, hones⟩, ?_⟩
  rintro ⟨R1, _, h1⟩
  rw [launch_46341 (zeros 2147488281) (zeros 2147488281) (ones 2147488281)
    (zeros_length _) (zeros_length _) hones 0] at h1
  cases h1

/-- A column loop that returns has kept every field of the context other than
`kernelResults`. -/
theorem runLoop_eq_ok {α : Type} [Zero α] [Add α] [Mul α] (rowA : Int) :
    ∀ (fuel : Nat) (colB : Int) (this this1 : This α),
      runLoop rowA fuel colB this = .ok this1 →
      this1.kernelMatrixA = this.kernelMatrixA ∧ this1.size = this.size ∧
        this1.kernelMatrixB = this.kernelMatrixB ∧ this1.passid = this.passid := by
  intro fuel
  induction fuel with
  | zero =>
    intro colB this this1 h
    unfold runLoop at h
    cases h
  | succ fuel ih =>
    intro colB this this1 h
    unfold runLoop at h
    by_cases hc : colB < this.size
    · rw [if_pos hc] at h
      obtain ⟨this2, h1, h⟩ := bind_eq_ok _ _ _ h
      obtain ⟨colB1, _, h⟩ := bind_eq_ok _ _ _ h
      obtain ⟨_, _, h3⟩ := multiply_eq_ok this this2 rowA colB h1
      obtain ⟨e1, e2, e3, e4⟩ := ih colB1 this2 this1 h
      rw [e1, e2, e3, e4, h3]
      exact ⟨rfl, rfl, rfl, rfl⟩
    · rw [if_neg hc] at h
      cases h
      exact ⟨rfl, rfl, rfl, rfl⟩

/-- A work-item that returns has kept `A`, `B`, `size` and `passid`. -/
theorem run_eq_ok {α : Type} [Zero α] [Add α] [Mul α] (A B R : List α) (size p gid : Int)
    (this1 : This α) (h : run A size B R p gid = .ok this1) :
    this1.kernelMatrixA = A ∧ this1.size = size ∧ this1.kernelMatrixB = B ∧
      this1.passid = p :=
  runLoop_eq_ok gid _ 0 (runContext A size B R p) this1 h

/-- A sequence of work-items that returns has kept `A`, `B`, `size` and
`passid`. -/
theorem launchSeq_eq_ok {α : Type} [Zero α] [Add α] [Mul α] :
    ∀ (order : List Int) (this this1 : This α),
      launchSeq order this = .ok this1 →
      this1.kernelMatrixA = this.kernelMatrixA ∧ this1.size = this.size ∧
        this1.kernelMatrixB = this.kernelMatrixB ∧ this1.passid = this.passid := by
  intro order
  induction order with
  | nil =>
    intro this this1 h
    unfold launchSeq at h
    cases h
    exact ⟨rfl, rfl, rfl, rfl⟩
  | cons g rest ih =>
    intro this this1 h
    unfold launchSeq at h
    obtain ⟨this2, h1, h2⟩ := bind_eq_ok _ _ _ h
    obtain ⟨a1, a2, a3, a4⟩ := run_eq_ok _ _ _ _ _ _ this2 h1
    obtain ⟨e1, e2, e3, e4⟩ := ih this2 this1 h2
    rw [e1, e2, e3, e4, a1, a2, a3, a4]
    exact ⟨rfl, rfl, rfl, rfl⟩

/-- C11: whatever `size`, `rowA` and `columnB` are, a call of `multiply`, a
work-item of `run`, a sequence of work-items and a full launch that return leave
the contents of `A`, the contents of `B` and `size` exactly as they were (only
`kernelResults` can differ); and within a dimension `N ≤ 46340`, on buffers of
length `N * N`, the full launch does return, on a context with the same `A`, `B`
and `size`. -/
theorem inputs_immutable {α : Type} [Zero α] [Add α] [Mul α] :
    (∀ (this this1 : This α) (rowA columnB : Int),
      multiply this rowA columnB = .ok this1 →
      this1.kernelMatrixA = this.kernelMatrixA ∧ this1.kernelMatrixB = this.kernelMatrixB ∧
        this1.size = this.size) ∧
    (∀ (A B R : List α) (size p rowA : Int) (this1 : This α),
      run A size B R p rowA = .ok this1 →
      this1.kernelMatrixA = A ∧ this1.kernelMatrixB = B ∧ this1.size = size) ∧
    (∀ (order : List Int) (this this1 : This α),
      launchSeq order this = .ok this1 →
      this1.kernelMatrixA = this.kernelMatrixA ∧ this1.kernelMatrixB = this.kernelMatrixB ∧
        this1.size = this.size) ∧
    (∀ (N : Nat) (this this1 : This α),
      launch N this = .ok this1 →
      this1.kernelMatrixA = this.kernelMatrixA ∧ this1.kernelMatrixB = this.kernelMatrixB ∧
        this1.size = this.size) ∧
    (∀ (N : Nat) (A B R : List α) (p : Int),
      N ≤ 46340 → A.length = N * N → B.length = N * N → R.length = N * N →
      ∃ R1 : List α,
        launch N (runContext A (N : Int) B R p) = .ok (runContext A (N : Int) B R1 p)) := by
  refine ⟨?_, ?_, ?_, ?_, ?_⟩
  · intro this this1 rowA columnB h
    obtain ⟨_, _, h3⟩ := multiply_eq_ok this this1 rowA columnB h
    rw [h3]
    exact ⟨rfl, rfl, rfl⟩
  · intro A B R size p rowA this1 h
    obtain ⟨h1, h2, h3, _⟩ := run_eq_ok A B R size p rowA this1 h
    exact ⟨h1, h3, h2⟩
  · intro order this this1 h
    obtain ⟨h1, h2, h3, _⟩ := launchSeq_eq_ok order this this1 h
    exact ⟨h1, h3, h2⟩
  · intro N this this1 h
    obtain ⟨h1, h2, h3, _⟩ := launchSeq_eq_ok _ this this1 h
    exact ⟨h1, h3, h2⟩
  · intro N A B R p hN hA hB hR
    obtain ⟨R1, h, _⟩ := launch_ok A B R p N hN hA hB hR
    exact ⟨R1, h⟩

/-- C11, witness: dimension 2; `multiply(1, 0)`, the work-item of row 1, the
work-items of rows 1 then 0, and the full launch. -/
theorem inputs_immutable_witness :
    (multiply (runContext [1, 2, 3, 4] 2 [5, 6, 7, 8] [0, 0, 0, 0] 7 : This Int) 1 0 =
        .ok (runContext [1, 2, 3, 4] 2 [5, 6, 7, 8] [0, 43, 0, 0] 7) ∧
      (runContext [1, 2, 3, 4] 2 [5, 6, 7, 8] [0, 43, 0, 0] 7 : This Int).kernelMatrixA =
        (runContext [1, 2, 3, 4] 2 [5, 6, 7, 8] [0, 0, 0, 0] 7 : This Int).kernelMatrixA ∧
      (runContext [1, 2, 3, 4] 2 [5, 6, 7, 8] [0, 43, 0, 0] 7 : This Int).kernelMatrixB =
        (runContext [1, 2, 3, 4] 2 [5, 6, 7, 8] [0, 0, 0, 0] 7 : This Int).kernelMatrixB ∧
      (runContext [1, 2, 3, 4] 2 [5, 6, 7, 8] [0, 43, 0, 0] 7 : This Int).size =
        (runContext [1, 2, 3, 4] 2 [5, 6, 7, 8] [0, 0, 0, 0] 7 : This Int).size) ∧
    (run ([1, 2, 3, 4] : List Int) 2 [5, 6, 7, 8] [0, 0, 0, 0] 7 1 =
        .ok (runContext [1, 2, 3, 4] 2 [5, 6, 7, 8] [0, 43, 0, 50] 7) ∧
      (runContext [1, 2, 3, 4] 2 [5, 6, 7, 8] [0, 43, 0, 50] 7 : This Int).kernelMatrixA =
        [1, 2, 3, 4] ∧
      (runContext [1, 2, 3, 4] 2 [5, 6, 7, 8] [0, 43, 0, 50] 7 : This Int).kernelMatrixB =
        [5, 6, 7, 8] ∧
      (runContext [1, 2, 3, 4] 2 [5, 6, 7, 8] [0, 43, 0, 50] 7 : This Int).size = 2) ∧
    (launchSeq [1, 0] (runContext [1, 2, 3, 4] 2 [5, 6, 7, 8] [0, 0, 0, 0] 7 : This Int) =
        .ok (runContext [1, 2, 3, 4] 2 [5, 6, 7, 8] [19, 43, 22, 50] 7) ∧
      (runContext [1, 2, 3, 4] 2 [5, 6, 7, 8] [19, 43, 22, 50] 7 : This Int).kernelMatrixA =
        (runContext [1, 2, 3, 4] 2 [5, 6, 7, 8] [0, 0, 0, 0] 7 : This Int).kernelMatrixA ∧
      (runContext [1, 2, 3, 4] 2 [5, 6, 7, 8] [19, 43, 22, 50] 7 : This Int).kernelMatrixB =
        (runContext [1, 2, 3, 4] 2 [5, 6, 7, 8] [0, 0, 0, 0] 7 : This Int).kernelMatrixB ∧
      (runContext [1, 2, 3, 4] 2 [5, 6, 7, 8] [19, 43, 22, 50] 7 : This Int).size =
        (runContext [1, 2, 3, 4] 2 [5, 6, 7, 8] [0, 0, 0, 0] 7 : This Int).size) ∧
    (launch 2 (runContext [1, 2, 3, 4] 2 [5, 6, 7, 8] [9, 9, 9, 9] 7 : This Int) =
        .ok (runContext [1, 2, 3, 4] 2 [5, 6, 7, 8] [19, 43, 22, 50] 7) ∧
      (runContext [1, 2, 3, 4] 2 [5, 6, 7, 8] [19, 43, 22, 50] 7 : This Int).kernelMatrixA =
        (runContext [1, 2, 3, 4] 2 [5, 6, 7, 8] [9, 9, 9, 9] 7 : This Int).kernelMatrixA ∧
      (runContext [1, 2, 3, 4] 2 [5, 6, 7, 8] [19, 43, 22, 50] 7 : This Int).kernelMatrixB =
        (runContext [1, 2, 3, 4] 2 [5, 6, 7, 8] [9, 9, 9, 9] 7 : This Int).kernelMatrixB ∧
      (runContext [1, 2, 3, 4] 2 [5, 6, 7, 8] [19, 43, 22, 50] 7 : This Int).size =
        (runContext [1, 2, 3, 4] 2 [5, 6, 7, 8] [9, 9, 9, 9] 7 : This Int).size) ∧
    ((2 ≤ 46340 ∧ ([1, 2, 3, 4] : List Int).length = 2 * 2 ∧
      ([5, 6, 7, 8] : List Int).length = 2 * 2 ∧ ([0, 0, 0, 0] : List Int).length = 2 * 2) ∧
      ∃ R1 : List Int,
        launch 2 (runContext [1, 2, 3, 4] ((2 : Nat) : Int) [5, 6, 7, 8] [0, 0, 0, 0] 7) =
          .ok (runContext [1, 2, 3, 4] ((2 : Nat) : Int) [5, 6, 7, 8] R1 7)) :=
  ⟨⟨rfl, inputs_immutable.1 _ _ 1 0 (by rfl)⟩,
    ⟨rfl, inputs_immutable.2.1 [1, 2, 3, 4] [5, 6, 7, 8] [0, 0, 0, 0] 2 7 1 _ (by rfl)⟩,
    ⟨rfl, inputs_immutable.2.2.1 [1, 0] _ _ (by rfl)⟩,
    ⟨rfl, inputs_immutable.2.2.2.1 2 _ _ (by rfl)⟩,
    ⟨by decide, rfl, rfl, rfl⟩,
    inputs_immutable.2.2.2.2 2 [1, 2, 3, 4] [5, 6, 7, 8] [0, 0, 0, 0] 7 (by decide) rfl rfl rfl⟩

/-! ## Bounds -/

/-- On buffers of length `N * N` and for `rowA, columnB < N`, the accumulation
loop ends with a value or with an overflow, never on an out-of-bounds read. -/
theorem multiplyLoop_in_bounds {α : Type} [Add α] [Mul α] (this : This α) (N r c : Nat)
    (hsize : this.size = (N : Int))
    (hA : this.kernelMatrixA.length = N * N) (hB : this.kernelMatrixB.length = N * N)
    (hr : r < N) (hc : c < N) :
    ∀ (k fuel i : Nat) (s : α), i + k = N → k < fuel →
      (∃ v, multiplyLoop this (r : Int) (c : Int) fuel (i : Int) s = .ok v) ∨
        multiplyLoop this (r : Int) (c : Int) fuel (i : Int) s = .error .overflow := by
  intro k
  induction k with
  | zero =>
    intro fuel i s hi hf
    obtain ⟨fuel, rfl⟩ : ∃ m, fuel = m + 1 := ⟨fuel - 1, by omega⟩
    left
    unfold multiplyLoop
    rw [if_neg (by rw [hsize]; omega)]
    exact ⟨s, rfl⟩
  | succ k ih =>
    intro fuel i s hi hf
    obtain ⟨fuel, rfl⟩ : ∃ m, fuel = m + 1 := ⟨fuel - 1, by omega⟩
    have hiN : i < N := by omega
    have h1 := flat_lt N r i hr hiN
    have h2 := flat_lt N i c hiN hc
    unfold multiplyLoop
    rw [if_pos (by rw [hsize]; omega), hsize]
    by_cases hA1 : r * N + i ≤ 2147483647
    · rw [indexA_ofNat N r i hA1, ok_bind]
      obtain ⟨a, ha⟩ := load_ofNat_ok this.kernelMatrixA (r * N + i) (by omega)
      rw [ha, ok_bind]
      by_cases hB1 : i * N + c ≤ 2147483647
      · rw [indexB_ofNat N i c hB1, ok_bind]
        obtain ⟨b, hb⟩ := load_ofNat_ok this.kernelMatrixB (i * N + c) (by omega)
        rw [hb, ok_bind]
        have h3 : ((i : Int) + 1) = ((i + 1 : Nat) : Int) := by push_cast; ring
        rw [h3]
        by_cases hi1 : i + 1 ≤ 2147483647
        · rw [int32_ofNat _ hi1, ok_bind]
          exact ih fuel (i + 1) _ (by omega) (by omega)
        · rw [int32_overflow _ (by omega), error_bind]
          right
          rfl
      · rw [indexB_overflow N i c (by omega), error_bind]
        right
        rfl
    · rw [indexA_overflow N r i (by omega), error_bind]
      right
      rfl

/-- On buffers of length `N * N` and for `rowA, columnB < N`, `multiply` returns,
with `Result` at its length, or overflows; it makes no out-of-bounds access. -/
theorem multiply_in_bounds {α : Type} [Zero α] [Add α] [Mul α] (A B R : List α) (p : Int)
    (N r c : Nat) (hA : A.length = N * N) (hB : B.length = N * N) (hR : R.length = N * N)
    (hr : r < N) (hc : c < N) :
    (∃ R1 : List α, multiply (runContext A (N : Int) B R p) (r : Int) (c : Int) =
        .ok (runContext A (N : Int) B R1 p) ∧ R1.length = N * N) ∨
      multiply (runContext A (N : Int) B R p) (r : Int) (c : Int) = .error .overflow := by
  have h1 := flat_lt N c r hc hr
  unfold multiply
  have hfuel : (runContext A (N : Int) B R p).size.toNat + 1 = N + 1 := by
    simp [runContext]
  rw [hfuel]
  have h0 : (0 : Int) = ((0 : Nat) : Int) := rfl
  rw [h0]
  rcases multiplyLoop_in_bounds (runContext A (N : Int) B R p) N r c rfl hA hB hr hc
    N (N + 1) 0 0 (by omega) (by omega) with ⟨v, hv⟩ | herr
  · rw [hv, ok_bind]
    have hsz : (runContext A (N : Int) B R p).size = (N : Int) := rfl
    rw [hsz]
    by_cases hidx : c * N + r ≤ 2147483647
    · rw [indexResult_ofNat N r c hidx, ok_bind]
      have hRes : (runContext A (N : Int) B R p).kernelResults = R := rfl
      rw [hRes, store_ofNat R _ _ (by omega), ok_bind]
      left
      exact ⟨R.set (c * N + r) v, rfl, by rw [List.length_set, hR]⟩
    · rw [indexResult_overflow N r c (by omega), error_bind]
      right
      rfl
  · rw [herr, error_bind]
    right
    rfl

theorem runLoop_in_bounds {α : Type} [Zero α] [Add α] [Mul α] (A B : List α) (p : Int)
    (N r : Nat) (hA : A.length = N * N) (hB : B.length = N * N) (hr : r < N) :
    ∀ (k fuel j : Nat) (R : List α), R.length = N * N → j + k = N → k < fuel →
      (∃ R1 : List α, runLoop (r : Int) fuel (j : Int) (runContext A (N : Int) B R p) =
          .ok (runContext A (N : Int) B R1 p) ∧ R1.length = N * N) ∨
        runLoop (r : Int) fuel (j : Int) (runContext A (N : Int) B R p) =
          .error .overflow := by
  intro k
  induction k with
  | zero =>
    intro fuel j R hR hj hf
    obtain ⟨fuel, rfl⟩ : ∃ m, fuel = m + 1 := ⟨fuel - 1, by omega⟩
    left
    refine ⟨R, ?_, hR⟩
    unfold runLoop
    have hsz : (runContext A (N : Int) B R p).size = (N : Int) := rfl
    rw [if_neg (by rw [hsz]; omega)]
  | succ k ih =>
    intro fuel j R hR hj hf
    obtain ⟨fuel, rfl⟩ : ∃ m, fuel = m + 1 := ⟨fuel - 1, by omega⟩
    have hjN : j < N := by omega
    have hsz : (runContext A (N : Int) B R p).size = (N : Int) := rfl
    unfold runLoop
    rw [if_pos (by rw [hsz]; omega)]
    rcases multiply_in_bounds A B R p N r j hA hB hR hr hjN with ⟨R1, hm, hlen⟩ | herr
    · rw [hm, ok_bind]
      have h3 : ((j : Int) + 1) = ((j + 1 : Nat) : Int) := by push_cast; ring
      rw [h3]
      by_cases hj1 : j + 1 ≤ 2147483647
      · rw [int32_ofNat _ hj1, ok_bind]
        exact ih fuel (j + 1) R1 hlen (by omega) (by omega)
      · rw [int32_overflow _ (by omega), error_bind]
        right
        rfl
    · rw [herr, error_bind]
      right
      rfl

/-- On buffers of length `N * N`, the work-item of a row `r < N` returns or
overflows, whatever `N` is. -/
theorem run_in_bounds {α : Type} [Zero α] [Add α] [Mul α] (A B R : List α) (p : Int)
    (N r : Nat) (hA : A.length = N * N) (hB : B.length = N * N) (hR : R.length = N * N)
    (hr : r < N) :
    (∃ R1 : List α, run A (N : Int) B R p (r : Int) = .ok (runContext A (N : Int) B R1 p) ∧
        R1.length = N * N) ∨
      run A (N : Int) B R p (r : Int) = .error .overflow := by
  unfold run
  have hfuel : (runContext A (N : Int) B R p).size.toNat + 1 = N + 1 := by
    simp [runContext]
  simp only [hfuel]
  exact runLoop_in_bounds A B p N r hA hB hr N (N + 1) 0 R hR (by omega) (by omega)

/-- An index expression that is computed has its mathematical value, which is
not negative when its operands are not. -/
theorem indexA_ofNat_eq_ok (N r i : Nat) (k : Int)
    (h : indexA (N : Int) (r : Int) (i : Int) = .ok k) :
    k = ((r * N + i : Nat) : Int) := by
  rw [(indexA_eq_ok _ _ _ _ h).1]
  push_cast
  ring

/-! ## 32-bit index arithmetic -/

/-- C13: the three index expressions go through `int32` at the product and at the
sum.  For `1 ≤ N ≤ 46340` and `rowA, columnB, i < N` each product and each
expression is computed without overflow, lies in `[0, 2^31 - 1]` and is the
mathematical value; at `N = 46341` the expression `rowA * size + i` exceeds
`2^31 - 1` for `rowA = 46340`, `i = 41708`, where the kernel overflows. -/
theorem index_arithmetic_32bit :
    (∀ N rowA columnB i : Nat, 1 ≤ N → N ≤ 46340 → rowA < N → columnB < N → i < N →
      (int32 ((rowA : Int) * (N : Int)) = .ok ((rowA : Int) * (N : Int)) ∧
        0 ≤ (rowA : Int) * (N : Int) ∧ (rowA : Int) * (N : Int) ≤ INT_MAX ∧
        indexA (N : Int) (rowA : Int) (i : Int) = .ok ((rowA : Int) * (N : Int) + (i : Int)) ∧
        0 ≤ (rowA : Int) * (N : Int) + (i : Int) ∧
        (rowA : Int) * (N : Int) + (i : Int) ≤ INT_MAX) ∧
      (int32 ((i : Int) * (N : Int)) = .ok ((i : Int) * (N : Int)) ∧
        0 ≤ (i : Int) * (N : Int) ∧ (i : Int) * (N : Int) ≤ INT_MAX ∧
        indexB (N : Int) (i : Int) (columnB : Int) =
          .ok ((i : Int) * (N : Int) + (columnB : Int)) ∧
        0 ≤ (i : Int) * (N : Int) + (columnB : Int) ∧
        (i : Int) * (N : Int) + (columnB : Int) ≤ INT_MAX) ∧
      (int32 ((columnB : Int) * (N : Int)) = .ok ((columnB : Int) * (N : Int)) ∧
        0 ≤ (columnB : Int) * (N : Int) ∧ (columnB : Int) * (N : Int) ≤ INT_MAX ∧
        indexResult (N : Int) (rowA : Int) (columnB : Int) =
          .ok ((columnB : Int) * (N : Int) + (rowA : Int)) ∧
        0 ≤ (columnB : Int) * (N : Int) + (rowA : Int) ∧
        (columnB : Int) * (N : Int) + (rowA : Int) ≤ INT_MAX)) ∧
    (INT_MAX = 2 ^ 31 - 1 ∧
      ∃ rowA i : Nat, rowA < 46341 ∧ i < 46341 ∧
        INT_MAX < (rowA : Int) * 46341 + (i : Int) ∧
        indexA 46341 (rowA : Int) (i : Int) = .error .overflow) := by
  have key : ∀ N x y : Nat, N ≤ 46340 → x < N → y < N →
      int32 ((x : Int) * (N : Int)) = .ok ((x : Int) * (N : Int)) ∧
        0 ≤ (x : Int) * (N : Int) ∧ (x : Int) * (N : Int) ≤ INT_MAX ∧
        indexA (N : Int) (x : Int) (y : Int) = .ok ((x : Int) * (N : Int) + (y : Int)) ∧
        0 ≤ (x : Int) * (N : Int) + (y : Int) ∧
        (x : Int) * (N : Int) + (y : Int) ≤ INT_MAX := by
    intro N x y hN hx hy
    have hsq := sq_le_of_le N hN
    have hlt := flat_lt N x y hx hy
    have e1 : ((x : Int) * (N : Int)) = ((x * N : Nat) : Int) := by push_cast; ring
    have e2 : ((x : Int) * (N : Int) + (y : Int)) = ((x * N + y : Nat) : Int) := by
      push_cast; ring
    refine ⟨?_, ?_, ?_, ?_, ?_, ?_⟩
    · rw [e1]
      exact int32_ofNat _ (by omega)
    · rw [e1]
      exact Int.ofNat_nonneg _
    · rw [e1]
      unfold INT_MAX
      omega
    · rw [e2]
      exact indexA_ofNat N x y (by omega)
    · rw [e2]
      exact Int.ofNat_nonneg _
    · rw [e2]
      unfold INT_MAX
      omega
  refine ⟨?_, rfl, 46340, 41708, by omega, by omega, ?_, ?_⟩
  · intro N rowA columnB i _ hN hr hc hi
    exact ⟨key N rowA i hN hr hi, key N i columnB hN hi hc, key N columnB rowA hN hc hr⟩
  · unfold INT_MAX
    norm_num
  · rfl

/-- C13, witness: dimension 2 with `rowA = 1`, `columnB = 0`, `i = 1`. -/
theorem index_arithmetic_32bit_witness :
    (1 ≤ 2 ∧ 2 ≤ 46340 ∧ 1 < 2 ∧ 0 < 2 ∧ 1 < 2) ∧
    ((int32 (((1 : Nat) : Int) * ((2 : Nat) : Int)) = .ok (((1 : Nat) : Int) * ((2 : Nat) : Int)) ∧
        0 ≤ ((1 : Nat) : Int) * ((2 : Nat) : Int) ∧
        ((1 : Nat) : Int) * ((2 : Nat) : Int) ≤ INT_MAX ∧
        indexA ((2 : Nat) : Int) ((1 : Nat) : Int) ((1 : Nat) : Int) =
          .ok (((1 : Nat) : Int) * ((2 : Nat) : Int) + ((1 : Nat) : Int)) ∧
        0 ≤ ((1 : Nat) : Int) * ((2 : Nat) : Int) + ((1 : Nat) : Int) ∧
        ((1 : Nat) : Int) * ((2 : Nat) : Int) + ((1 : Nat) : Int) ≤ INT_MAX) ∧
      (int32 (((1 : Nat) : Int) * ((2 : Nat) : Int)) = .ok (((1 : Nat) : Int) * ((2 : Nat) : Int)) ∧
        0 ≤ ((1 : Nat) : Int) * ((2 : Nat) : Int) ∧
        ((1 : Nat) : Int) * ((2 : Nat) : Int) ≤ INT_MAX ∧
        indexB ((2 : Nat) : Int) ((1 : Nat) : Int) ((0 : Nat) : Int) =
          .ok (((1 : Nat) : Int) * ((2 : Nat) : Int) + ((0 : Nat) : Int)) ∧
        0 ≤ ((1 : Nat) : Int) * ((2 : Nat) : Int) + ((0 : Nat) : Int) ∧
        ((1 : Nat) : Int) * ((2 : Nat) : Int) + ((0 : Nat) : Int) ≤ INT_MAX) ∧
      (int32 (((0 : Nat) : Int) * ((2 : Nat) : Int)) = .ok (((0 : Nat) : Int) * ((2 : Nat) : Int)) ∧
        0 ≤ ((0 : Nat) : Int) * ((2 : Nat) : Int) ∧
        ((0 : Nat) : Int) * ((2 : Nat) : Int) ≤ INT_MAX ∧
        indexResult ((2 : Nat) : Int) ((1 : Nat) : Int) ((0 : Nat) : Int) =
          .ok (((0 : Nat) : Int) * ((2 : Nat) : Int) + ((1 : Nat) : Int)) ∧
        0 ≤ ((0 : Nat) : Int) * ((2 : Nat) : Int) + ((1 : Nat) : Int) ∧
        ((0 : Nat) : Int) * ((2 : Nat) : Int) + ((1 : Nat) : Int) ≤ INT_MAX)) :=
  ⟨⟨by decide, by decide, by decide, by decide, by decide⟩,
    index_arithmetic_32bit.1 2 1 0 1 (by decide) (by decide) (by decide) (by decide)
      (by decide)⟩

/-- C14, amended: for a dimension `N ≤ 46340`, a row `rowA < N` and buffers of
length `N * N`, the work-item of `rowA` returns, and run a second time on the
buffers it left it returns the same `Result`. -/
theorem run_idempotent {α : Type} [Zero α] [Add α] [Mul α] (N rowA : Nat) (A B R : List α)
    (p : Int) (hN : N ≤ 46340) (hrow : rowA < N) (hA : A.length = N * N)
    (hB : B.length = N * N) (hR : R.length = N * N) :
    ∃ R1 : List α,
      run A (N : Int) B R p (rowA : Int) = .ok (runContext A (N : Int) B R1 p) ∧
      run A (N : Int) B R1 p (rowA : Int) = .ok (runContext A (N : Int) B R1 p) := by
  obtain ⟨R1, h1, hlen1, hget1⟩ := run_ok A B R p N rowA hN hA hB hR hrow
  obtain ⟨R2, h2, hlen2, hget2⟩ := run_ok A B R1 p N rowA hN hA hB hlen1 hrow
  have heq : R2 = R1 := by
    apply List.ext_getElem?
    intro q
    rw [hget2 q, hget1 q]
    by_cases hq : q < N * N ∧ q % N = rowA
    · rw [if_pos hq, if_pos hq]
    · rw [if_neg hq]
  rw [heq] at h2
  exact ⟨R1, h1, h2⟩

/-- C14, witness: dimension 2, row 1. -/
theorem run_idempotent_witness :
    (2 ≤ 46340 ∧ 1 < 2 ∧ ([1, 2, 3, 4] : List Int).length = 2 * 2 ∧
      ([5, 6, 7, 8] : List Int).length = 2 * 2 ∧ ([9, 9, 9, 9] : List Int).length = 2 * 2) ∧
    ∃ R1 : List Int,
      run [1, 2, 3, 4] ((2 : Nat) : Int) [5, 6, 7, 8] [9, 9, 9, 9] 7 ((1 : Nat) : Int) =
        .ok (runContext [1, 2, 3, 4] ((2 : Nat) : Int) [5, 6, 7, 8] R1 7) ∧
      run [1, 2, 3, 4] ((2 : Nat) : Int) [5, 6, 7, 8] R1 7 ((1 : Nat) : Int) =
        .ok (runContext [1, 2, 3, 4] ((2 : Nat) : Int) [5, 6, 7, 8] R1 7) :=
  ⟨⟨by decide, by decide, rfl, rfl, rfl⟩,
    run_idempotent 2 1 [1, 2, 3, 4] [5, 6, 7, 8] [9, 9, 9, 9] 7 (by decide) (by decide)
      rfl rfl rfl⟩

/-- C14 as stated fails at `N = 46341`: with buffers of `N * N` ones the
work-item of row 1 faults on a 32-bit overflow already the first time, so there
is no `Result` of one execution for a second one to reproduce. -/
theorem run_idempotent_fails_46341 :
    ((ones 2147488281).length = 46341 * 46341 ∧ 1 < 46341) ∧
    run (ones 2147488281) 46341 (ones 2147488281) (ones 2147488281) 0 1 =
      .error .overflow ∧
    ¬ ∃ R1 : List Int,
      run (ones 2147488281) 46341 (ones 2147488281) (ones 2147488281) 0 1 =
        .ok (runContext (ones 2147488281) 46341 (ones 2147488281) R1 0) ∧
      run (ones 2147488281) 46341 (ones 2147488281) R1 0 1 =
        .ok (runContext (ones 2147488281) 46341 (ones 2147488281) R1 0) := by
  have hones : (ones 2147488281).length = 2147488281 := by
    unfold ones
    rw [List.length_replicate]
  have h : run (ones 2147488281) 46341 (ones 2147488281) (ones 2147488281) 0 1 =
      .error .overflow := by
    have h1 := run_46341 (ones 2147488281) (ones 2147488281) (ones 2147488281)
      hones hones hones 1 (by omega) 0
    rw [Nat.cast_one] at h1
    exact h1
  refine ⟨⟨hones, by omega⟩, h, ?_⟩
  rintro ⟨R1, h1, _⟩
  rw [h] at h1
  cases h1

/-! ## The record of accesses -/

theorem map_bind {ε α β γ : Type} (x : Except ε α) (f : α → Except ε β) (g : β → γ) :
    Except.map g (x >>= f) = x >>= fun a => Except.map g (f a) := by
  cases x <;> rfl

theorem bind_map {ε α β γ : Type} (x : Except ε α) (g : α → β) (f : β → Except ε γ) :
    (Except.map g x >>= f) = x >>= fun a => f (g a) := by
  cases x <;> rfl

/-- Dropping the record from `multiplyLoopLog` gives `multiplyLoop`. -/
theorem multiplyLoopLog_fst {α : Type} [Add α] [Mul α] (this : This α) (rowA columnB : Int) :
    ∀ (fuel : Nat) (i : Int) (sum : α) (log : List Event),
      Except.map Prod.fst (multiplyLoopLog this rowA columnB fuel i sum log) =
        multiplyLoop this rowA columnB fuel i sum := by
  intro fuel
  induction fuel with
  | zero =>
    intro i sum log
    rfl
  | succ fuel ih =>
    intro i sum log
    unfold multiplyLoopLog multiplyLoop
    by_cases hi : i < this.size
    · rw [if_pos hi, if_pos hi]
      simp only [map_bind, ih]
    · rw [if_neg hi, if_neg hi]
      rfl

/-- Dropping the record from `multiplyLog` gives `multiply`. -/
theorem multiplyLog_fst {α : Type} [Zero α] [Add α] [Mul α] (this : This α)
    (rowA columnB : Int) (log : List Event) :
    Except.map Prod.fst (multiplyLog this rowA columnB log) = multiply this rowA columnB := by
  unfold multiplyLog multiply
  rw [← multiplyLoopLog_fst this rowA columnB _ _ _ log, bind_map]
  simp only [map_bind]
  rfl

/-- Dropping the record from `runLoopLog` gives `runLoop`. -/
theorem runLoopLog_fst {α : Type} [Zero α] [Add α] [Mul α] (rowA : Int) :
    ∀ (fuel : Nat) (colB : Int) (this : This α) (log : List Event),
      Except.map Prod.fst (runLoopLog rowA fuel colB this log) =
        runLoop rowA fuel colB this := by
  intro fuel
  induction fuel with
  | zero =>
    intro colB this log
    rfl
  | succ fuel ih =>
    intro colB this log
    unfold runLoopLog runLoop
    by_cases hc : colB < this.size
    · rw [if_pos hc, if_pos hc,
        ← multiplyLog_fst this rowA colB (log ++ [Event.column colB]), bind_map]
      simp only [map_bind, ih]
    · rw [if_neg hc, if_neg hc]
      rfl

/-- Dropping the record from `runLog` gives `run`. -/
theorem runLog_fst {α : Type} [Zero α] [Add α] [Mul α] (A B R : List α)
    (size p globalId : Int) :
    Except.map Prod.fst (runLog A size B R p globalId) = run A size B R p globalId :=
  runLoopLog_fst globalId _ 0 _ []

/-- The record of the work-item of row 1 in dimension 2: two iterations, each
with four reads and one write. -/
theorem runLog_example :
    runLog ([1, 2, 3, 4] : List Int) 2 [5, 6, 7, 8] [0, 0, 0, 0] 7 1 =
      .ok (runContext [1, 2, 3, 4] 2 [5, 6, 7, 8] [0, 43, 0, 50] 7,
        [Event.column 0, Event.readA 2, Event.readB 0, Event.readA 3, Event.readB 2,
          Event.writeResult 1,
          Event.column 1, Event.readA 2, Event.readB 1, Event.readA 3, Event.readB 3,
          Event.writeResult 3]) := rfl

/-- C15: for every `size ≤ 0`, every `rowA` and all buffers, the work-item of
`run` returns with the context, `Result` included, exactly as it was built, and
its record is empty: it entered no iteration of the column loop, read no cell of
`A` or `B` and wrote no cell. -/
theorem run_nonpositive_size {α : Type} [Zero α] [Add α] [Mul α] (A B R : List α)
    (size p rowA : Int) (h : size ≤ 0) :
    run A size B R p rowA = .ok (runContext A size B R p) ∧
    (runContext A size B R p).kernelResults = R ∧
    runLog A size B R p rowA = .ok (runContext A size B R p, []) := by
  have hfuel : (runContext A size B R p).size.toNat + 1 = 1 := by
    have : (runContext A size B R p).size = size := rfl
    rw [this]
    omega
  have hguard : ¬ ((0 : Int) < (runContext A size B R p).size) := by
    have : (runContext A size B R p).size = size := rfl
    rw [this]
    omega
  refine ⟨?_, rfl, ?_⟩
  · unfold run
    simp only [hfuel]
    unfold runLoop
    rw [if_neg hguard]
  · unfold runLog
    simp only [hfuel]
    unfold runLoopLog
    rw [if_neg hguard]

/-- C15, witness: `size = -3` and `size = 0`, row 5, on buffers of two cells. -/
theorem run_nonpositive_size_witness :
    ((-3 : Int) ≤ 0 ∧
      run ([1, 2] : List Int) (-3) [3, 4] [5, 6] 7 5 = .ok (runContext [1, 2] (-3) [3, 4] [5, 6] 7) ∧
      (runContext ([1, 2] : List Int) (-3) [3, 4] [5, 6] 7).kernelResults = [5, 6] ∧
      runLog ([1, 2] : List Int) (-3) [3, 4] [5, 6] 7 5 =
        .ok (runContext [1, 2] (-3) [3, 4] [5, 6] 7, [])) ∧
    ((0 : Int) ≤ 0 ∧
      run ([1, 2] : List Int) 0 [3, 4] [5, 6] 7 5 = .ok (runContext [1, 2] 0 [3, 4] [5, 6] 7) ∧
      (runContext ([1, 2] : List Int) 0 [3, 4] [5, 6] 7).kernelResults = [5, 6] ∧
      runLog ([1, 2] : List Int) 0 [3, 4] [5, 6] 7 5 =
        .ok (runContext [1, 2] 0 [3, 4] [5, 6] 7, [])) :=
  ⟨⟨by decide, run_nonpositive_size [1, 2] [3, 4] [5, 6] (-3) 7 5 (by decide)⟩,
    ⟨by decide, run_nonpositive_size [1, 2] [3, 4] [5, 6] 0 7 5 (by decide)⟩⟩

/-! ## The arithmetic of `float` at work -/

theorem f32_round_tie : (F32.finite 16777216 + F32.finite 1 : F32) = F32.finite 16777216 := rfl

theorem f32_zero_mul_infinity : (0 * F32.infinity false : F32) = F32.nan := rfl

/-! ## What the record of a returning execution holds -/

theorem map_fst_eq_ok {ε α β : Type} (x : Except ε (α × β)) (a : α)
    (h : Except.map Prod.fst x = .ok a) : ∃ b, x = .ok (a, b) := by
  cases x with
  | error e => cases h
  | ok ab =>
    obtain ⟨a1, b1⟩ := ab
    cases h
    exact ⟨b1, rfl⟩

theorem map_fst_eq_error {ε α β : Type} (x : Except ε (α × β)) (e : ε)
    (h : Except.map Prod.fst x = .error e) : x = .error e := by
  cases x with
  | error e1 =>
    cases h
    rfl
  | ok ab => cases h

theorem writes_append (l1 l2 : List Event) : writes (l1 ++ l2) = writes l1 ++ writes l2 := by
  unfold writes
  rw [List.filterMap_append]

/-- The accumulation loop writes nothing, and what it reads it reads inside the
buffers. -/
theorem multiplyLoopLog_eq_ok {α : Type} [Zero α] [Add α] [Mul α] (this : This α)
    (rowA columnB : Int) (n : Nat)
    (hA : this.kernelMatrixA.length = n) (hB : this.kernelMatrixB.length = n) :
    ∀ (fuel : Nat) (i : Int) (s : α) (log : List Event) (v : α) (log1 : List Event),
      multiplyLoopLog this rowA columnB fuel i s log = .ok (v, log1) →
      writes log1 = writes log ∧
        ((∀ e ∈ log, Event.inBounds n e) → ∀ e ∈ log1, Event.inBounds n e) := by
  intro fuel
  induction fuel with
  | zero =>
    intro i s log v log1 h
    unfold multiplyLoopLog at h
    cases h
  | succ fuel ih =>
    intro i s log v log1 h
    unfold multiplyLoopLog at h
    by_cases hi : i < this.size
    · rw [if_pos hi] at h
      obtain ⟨ia, _, h⟩ := bind_eq_ok _ _ _ h
      obtain ⟨a, h2, h⟩ := bind_eq_ok _ _ _ h
      obtain ⟨ib, _, h⟩ := bind_eq_ok _ _ _ h
      obtain ⟨b, h4, h⟩ := bind_eq_ok _ _ _ h
      obtain ⟨i1, _, h⟩ := bind_eq_ok _ _ _ h
      obtain ⟨a1, a2, _⟩ := load_eq_ok _ _ _ h2
      obtain ⟨b1, b2, _⟩ := load_eq_ok _ _ _ h4
      obtain ⟨e1, e2⟩ := ih _ _ _ _ _ h
      constructor
      · rw [e1, writes_append]
        simp [writes, Event.writeIndex]
      · intro hlog
        apply e2
        intro e he
        rcases List.mem_append.mp he with he | he
        · exact hlog e he
        · simp only [List.mem_cons, List.mem_singleton, List.not_mem_nil, or_false] at he
          rcases he with rfl | rfl
          · exact ⟨a1, by omega⟩
          · exact ⟨b1, by omega⟩
    · rw [if_neg hi] at h
      cases h
      exact ⟨rfl, fun hlog => hlog⟩

/-- A returning `multiply` makes one write, at `columnB * size + rowA`, inside
`Result`. -/
theorem multiplyLog_eq_ok {α : Type} [Zero α] [Add α] [Mul α] (this : This α)
    (rowA columnB : Int) (n : Nat) (log : List Event) (this1 : This α) (log1 : List Event)
    (hA : this.kernelMatrixA.length = n) (hB : this.kernelMatrixB.length = n)
    (hR : this.kernelResults.length = n)
    (h : multiplyLog this rowA columnB log = .ok (this1, log1)) :
    multiply this rowA columnB = .ok this1 ∧
      writes log1 = writes log ++ [columnB * this.size + rowA] ∧
      ((∀ e ∈ log, Event.inBounds n e) → ∀ e ∈ log1, Event.inBounds n e) := by
  have herase := multiplyLog_fst this rowA columnB log
  rw [h] at herase
  refine ⟨herase.symm, ?_⟩
  unfold multiplyLog at h
  obtain ⟨sl, h1, h⟩ := bind_eq_ok _ _ _ h
  obtain ⟨ir, h2, h⟩ := bind_eq_ok _ _ _ h
  obtain ⟨r, h3, h⟩ := bind_eq_ok _ _ _ h
  cases h
  obtain ⟨sum, log2⟩ := sl
  obtain ⟨e1, e2⟩ := multiplyLoopLog_eq_ok this rowA columnB n hA hB _ _ _ _ _ _ h1
  have hir := (indexA_eq_ok _ _ _ _ h2).1
  obtain ⟨s1, s2, _⟩ := store_eq_ok _ _ _ _ h3
  constructor
  · rw [writes_append, e1, hir]
    rfl
  · intro hlog e he
    rcases List.mem_append.mp he with he | he
    · exact e2 hlog e he
    · simp only [List.mem_singleton] at he
      subst he
      exact ⟨s1, by omega⟩

theorem multiply_length_eq {α : Type} [Zero α] [Add α] [Mul α] (this this1 : This α)
    (rowA columnB : Int) (h : multiply this rowA columnB = .ok this1) :
    this1.kernelMatrixA = this.kernelMatrixA ∧ this1.kernelMatrixB = this.kernelMatrixB ∧
      this1.size = this.size ∧ this1.passid = this.passid ∧
      this1.kernelResults.length = this.kernelResults.length := by
  obtain ⟨_, _, h3⟩ := multiply_eq_ok this this1 rowA columnB h
  rw [h3]
  exact ⟨rfl, rfl, rfl, rfl, by simp [runContext]⟩

/-- A returning column loop writes once per remaining column, at
`colB * size + rowA`, in increasing `colB`, and all its accesses are inside the
buffers. -/
theorem runLoopLog_eq_ok {α : Type} [Zero α] [Add α] [Mul α] (rowA : Int) (n : Nat) :
    ∀ (fuel : Nat) (colB : Int) (this : This α) (log : List Event) (this1 : This α)
      (log1 : List Event),
      this.kernelMatrixA.length = n → this.kernelMatrixB.length = n →
      this.kernelResults.length = n →
      runLoopLog rowA fuel colB this log = .ok (this1, log1) →
      writes log1 = writes log ++
          (List.range (this.size - colB).toNat).map
            (fun k : Nat => (colB + (k : Int)) * this.size + rowA) ∧
        ((∀ e ∈ log, Event.inBounds n e) → ∀ e ∈ log1, Event.inBounds n e) ∧
        this1.kernelResults.length = n := by
  intro fuel
  induction fuel with
  | zero =>
    intro colB this log this1 log1 _ _ _ h
    unfold runLoopLog at h
    cases h
  | succ fuel ih =>
    intro colB this log this1 log1 hA hB hR h
    unfold runLoopLog at h
    by_cases hc : colB < this.size
    · rw [if_pos hc] at h
      obtain ⟨tl, h1, h⟩ := bind_eq_ok _ _ _ h
      obtain ⟨colB1, h2, h⟩ := bind_eq_ok _ _ _ h
      obtain ⟨this2, log2⟩ := tl
      obtain ⟨m1, m2, m3⟩ := multiplyLog_eq_ok this rowA colB n _ _ _ hA hB hR h1
      obtain ⟨f1, f2, f3, _, f5⟩ := multiply_length_eq this this2 rowA colB m1
      have hcol := (int32_eq_ok _ _ h2).1
      subst hcol
      obtain ⟨e1, e2, e3⟩ := ih _ this2 log2 this1 log1 (by rw [f1]; exact hA)
        (by rw [f2]; exact hB) (by rw [f5]; exact hR) h
      refine ⟨?_, ?_, e3⟩
      · have hn : (this.size - colB).toNat = (this.size - (colB + 1)).toNat + 1 := by omega
        rw [e1, m2, writes_append, f3, hn, List.range_succ_eq_map, List.map_cons,
          List.map_map]
        have hw : writes [Event.column colB] = [] := rfl
        have hf : ((fun k : Nat => (colB + (k : Int)) * this.size + rowA) ∘ Nat.succ) =
            (fun k : Nat => (colB + 1 + (k : Int)) * this.size + rowA) := by
          funext k
          simp only [Function.comp, Nat.succ_eq_add_one, Nat.cast_add, Nat.cast_one]
          ring
        rw [hw, hf]
        simp
      · intro hlog
        apply e2
        apply m3
        intro e he
        rcases List.mem_append.mp he with he | he
        · exact hlog e he
        · simp only [List.mem_singleton] at he
          subst he
          exact True.intro
    · rw [if_neg hc] at h
      cases h
      have hn : (this.size - colB).toNat = 0 := by omega
      rw [hn]
      exact ⟨by simp, fun hlog => hlog, hR⟩

/-- A returning work-item writes the cells `colB * size + rowA`, once each and
in increasing `colB`, and all its accesses are inside the buffers. -/
theorem runLog_eq_ok {α : Type} [Zero α] [Add α] [Mul α] (A B R : List α)
    (size p rowA : Int) (n : Nat) (this1 : This α) (log1 : List Event)
    (hA : A.length = n) (hB : B.length = n) (hR : R.length = n)
    (h : runLog A size B R p rowA = .ok (this1, log1)) :
    run A size B R p rowA = .ok this1 ∧
      writes log1 = (List.range size.toNat).map (fun k : Nat => (k : Int) * size + rowA) ∧
      (∀ e ∈ log1, Event.inBounds n e) ∧ this1.kernelResults.length = n := by
  have herase := runLog_fst A B R size p rowA
  rw [h] at herase
  refine ⟨herase.symm, ?_⟩
  obtain ⟨e1, e2, e3⟩ := runLoopLog_eq_ok rowA n _ 0 (runContext A size B R p) [] this1 log1
    hA hB hR h
  refine ⟨?_, e2 (fun e he => absurd he (List.not_mem_nil e)), e3⟩
  rw [e1]
  have hs : (runContext A size B R p).size = size := rfl
  simp only [hs, sub_zero, zero_add]
  rfl

/-- Dropping the record from `launchSeqLog` gives `launchSeq`. -/
theorem launchSeqLog_fst {α : Type} [Zero α] [Add α] [Mul α] :
    ∀ (order : List Int) (this : This α) (log : List Event),
      Except.map Prod.fst (launchSeqLog order this log) = launchSeq order this := by
  intro order
  induction order with
  | nil =>
    intro this log
    rfl
  | cons g rest ih =>
    intro this log
    unfold launchSeqLog launchSeq
    rw [← runLog_fst this.kernelMatrixA this.kernelMatrixB this.kernelResults this.size
      this.passid g, bind_map]
    simp only [map_bind, ih]

/-- Dropping the record from `launchLog` gives `launch`. -/
theorem launchLog_fst {α : Type} [Zero α] [Add α] [Mul α] (N : Nat) (this : This α) :
    Except.map Prod.fst (launchLog N this) = launch N this :=
  launchSeqLog_fst _ this []

/-- A returning sequence of work-items writes, work-item after work-item, the
cells `colB * size + rowA` in increasing `colB`, all accesses inside the
buffers. -/
theorem launchSeqLog_eq_ok {α : Type} [Zero α] [Add α] [Mul α] (n : Nat) :
    ∀ (order : List Int) (this : This α) (log : List Event) (this1 : This α)
      (log1 : List Event),
      this.kernelMatrixA.length = n → this.kernelMatrixB.length = n →
      this.kernelResults.length = n →
      launchSeqLog order this log = .ok (this1, log1) →
      writes log1 = writes log ++
          order.flatMap (fun g => (List.range this.size.toNat).map
            (fun k : Nat => (k : Int) * this.size + g)) ∧
        ((∀ e ∈ log, Event.inBounds n e) → ∀ e ∈ log1, Event.inBounds n e) := by
  intro order
  induction order with
  | nil =>
    intro this log this1 log1 _ _ _ h
    unfold launchSeqLog at h
    cases h
    exact ⟨by simp, fun hlog => hlog⟩
  | cons g rest ih =>
    intro this log this1 log1 hA hB hR h
    unfold launchSeqLog at h
    obtain ⟨tl, h1, h⟩ := bind_eq_ok _ _ _ h
    obtain ⟨this2, log2⟩ := tl
    obtain ⟨r1, r2, r3, r4⟩ := runLog_eq_ok _ _ _ _ _ _ n this2 log2 hA hB hR h1
    obtain ⟨f1, f2, f3, _⟩ := run_eq_ok _ _ _ _ _ _ this2 r1
    obtain ⟨e1, e2⟩ := ih this2 (log ++ log2) this1 log1 (by rw [f1]; exact hA)
      (by rw [f3]; exact hB) r4 h
    constructor
    · rw [e1, writes_append, r2, f2, List.flatMap_cons, List.append_assoc]
    · intro hlog
      apply e2
      intro e he
      rcases List.mem_append.mp he with he | he
      · exact hlog e he
      · exact r3 e he

/-- The flat indices `colB * N + rowA`, row after row, are the numbers below
`N * N` in another order. -/
theorem flat_indices_perm (N : Nat) :
    ((List.range N).flatMap fun r => (List.range N).map fun c => c * N + r).Perm
      (List.range (N * N)) := by
  apply (List.perm_ext_iff_of_nodup ?_ (List.nodup_range _)).mpr
  · intro k
    simp only [List.mem_flatMap, List.mem_map, List.mem_range]
    constructor
    · rintro ⟨r, hr, c, hc, rfl⟩
      exact flat_lt N c r hc hr
    · intro hk
      have hNpos : 0 < N := by
        rcases Nat.eq_zero_or_pos N with h | h
        · subst h; omega
        · exact h
      exact ⟨k % N, Nat.mod_lt k hNpos, k / N, Nat.div_lt_of_lt_mul hk,
        (flat_eq_iff N (k % N) (k / N) k (Nat.mod_lt k hNpos)).mpr ⟨rfl, rfl⟩⟩
  · rw [List.nodup_flatMap]
    constructor
    · intro r hr
      have hr1 := List.mem_range.mp hr
      apply List.Nodup.map_on _ (List.nodup_range N)
      intro c _ c1 _ h
      obtain ⟨_, h2⟩ := (flat_eq_iff N r c _ hr1).mp h
      obtain ⟨_, h4⟩ := (flat_eq_iff N r c1 _ hr1).mp rfl
      omega
    · apply List.Pairwise.imp_of_mem _ (List.nodup_range N)
      intro r r1 hr hr1 hne
      have h1 := List.mem_range.mp hr
      have h2 := List.mem_range.mp hr1
      intro k hk hk1
      obtain ⟨c, _, rfl⟩ := List.mem_map.mp hk
      obtain ⟨c1, _, h⟩ := List.mem_map.mp hk1
      obtain ⟨h3, _⟩ := (flat_eq_iff N r1 c1 _ h2).mp h
      obtain ⟨h5, _⟩ := (flat_eq_iff N r c _ h1).mp rfl
      exact hne (by omega)

/-! ## The matrix product -/

/-- C2, amended: for a dimension `N ≤ 46340` and buffers of length `N * N`, a
full launch returns and `Result[c * N + r]` is, for all `r, c < N`, the entry
`(r, c)` of the product as the kernel accumulates it, the sum of
`A[r * N + i] * B[i * N + c]` over `i = 0, ..., N - 1` taken from 0 left to right
in the arithmetic of the elements; and where that arithmetic is exact (a
commutative additive monoid) `Result` read as a row-major matrix is the
transpose of the matrix product of `A` and `B`. -/
theorem launch_transpose_product :
    (∀ (α : Type) [Zero α] [Add α] [Mul α] (N : Nat) (A B R : List α) (p : Int),
      N ≤ 46340 → A.length = N * N → B.length = N * N → R.length = N * N →
      ∃ R1 : List α,
        launch N (runContext A (N : Int) B R p) = .ok (runContext A (N : Int) B R1 p) ∧
        R1.length = N * N ∧
        ∀ r c, r < N → c < N → R1[c * N + r]? =
          some (sumUpTo (fun i => A.getD (r * N + i) 0 * B.getD (i * N + c) 0) N)) ∧
    (∀ (β : Type) [AddCommMonoid β] [Mul β] (N : Nat) (A B R : List β) (p : Int),
      N ≤ 46340 → A.length = N * N → B.length = N * N → R.length = N * N →
      ∃ R1 : List β,
        launch N (runContext A (N : Int) B R p) = .ok (runContext A (N : Int) B R1 p) ∧
        R1.length = N * N ∧
        toMatrix N R1 = (toMatrix N A * toMatrix N B).transpose) := by
  constructor
  · intro α _ _ _ N A B R p hN hA hB hR
    obtain ⟨R1, hrun, hlen, hget⟩ := launch_ok A B R p N hN hA hB hR
    refine ⟨R1, hrun, hlen, ?_⟩
    intro r c hr hc
    obtain ⟨h1, h2⟩ := (flat_eq_iff N r c _ hr).mp rfl
    rw [hget _ (flat_lt N c r hc hr), h1, h2]
    rfl
  · intro β _ _ N A B R p hN hA hB hR
    obtain ⟨R1, hrun, hlen, hget⟩ := launch_ok A B R p N hN hA hB hR
    refine ⟨R1, hrun, hlen, ?_⟩
    ext r c
    obtain ⟨h1, h2⟩ := (flat_eq_iff N c.val r.val _ c.isLt).mp rfl
    have hq := hget (r.val * N + c.val) (flat_lt N r.val c.val r.isLt c.isLt)
    rw [h1, h2] at hq
    have hd : R1.getD (r.val * N + c.val) 0 = dot A B N c.val r.val := by
      rw [List.getD_eq_getElem?_getD, hq]
      rfl
    rw [Matrix.transpose_apply, Matrix.mul_apply]
    unfold toMatrix
    simp only [Matrix.of_apply]
    rw [hd]
    unfold dot
    rw [sumUpTo_eq_sum, ← Fin.sum_univ_eq_sum_range]

/-- C2, witness: `N = 2`, `A = [1,2,3,4]`, `B = [5,6,7,8]` gives
`Result = [19, 43, 22, 50]`, on `float` values and on integers. -/
theorem launch_transpose_product_witness :
    (2 ≤ 46340 ∧ ([1, 2, 3, 4] : List Int).length = 2 * 2 ∧
      ([5, 6, 7, 8] : List Int).length = 2 * 2 ∧ ([0, 0, 0, 0] : List Int).length = 2 * 2) ∧
    (∃ R1 : List F32,
      launch 2 (runContext (([1, 2, 3, 4] : List Int).map F32.finite) ((2 : Nat) : Int)
          (([5, 6, 7, 8] : List Int).map F32.finite)
          (([0, 0, 0, 0] : List Int).map F32.finite) 7) =
        .ok (runContext (([1, 2, 3, 4] : List Int).map F32.finite) ((2 : Nat) : Int)
          (([5, 6, 7, 8] : List Int).map F32.finite) R1 7) ∧
      R1.length = 2 * 2 ∧
      ∀ r c, r < 2 → c < 2 → R1[c * 2 + r]? =
        some (sumUpTo (fun i => (([1, 2, 3, 4] : List Int).map F32.finite).getD (r * 2 + i) 0 *
          (([5, 6, 7, 8] : List Int).map F32.finite).getD (i * 2 + c) 0) 2)) ∧
    (∃ R1 : List Int,
      launch 2 (runContext [1, 2, 3, 4] ((2 : Nat) : Int) [5, 6, 7, 8] [0, 0, 0, 0] 7) =
        .ok (runContext [1, 2, 3, 4] ((2 : Nat) : Int) [5, 6, 7, 8] R1 7) ∧
      R1.length = 2 * 2 ∧
      toMatrix 2 R1 = (toMatrix 2 ([1, 2, 3, 4] : List Int) *
        toMatrix 2 ([5, 6, 7, 8] : List Int)).transpose) ∧
    launch 2 (runContext [1, 2, 3, 4] 2 [5, 6, 7, 8] [0, 0, 0, 0] 7 : This Int) =
      .ok (runContext [1, 2, 3, 4] 2 [5, 6, 7, 8] [19, 43, 22, 50] 7) ∧
    launch 2 (runContext (([1, 2, 3, 4] : List Int).map F32.finite) 2
        (([5, 6, 7, 8] : List Int).map F32.finite)
        (([0, 0, 0, 0] : List Int).map F32.finite) 7) =
      .ok (runContext (([1, 2, 3, 4] : List Int).map F32.finite) 2
        (([5, 6, 7, 8] : List Int).map F32.finite)
        (([19, 43, 22, 50] : List Int).map F32.finite) 7) :=
  ⟨⟨by decide, rfl, rfl, rfl⟩,
    launch_transpose_product.1 F32 2 _ _ _ 7 (by decide) rfl rfl rfl,
    launch_transpose_product.2 Int 2 [1, 2, 3, 4] [5, 6, 7, 8] [0, 0, 0, 0] 7 (by decide)
      rfl rfl rfl,
    rfl, rfl⟩

/-- C2 as stated fails twice.  At `N = 46341`, with buffers of `N * N` zeros, the
full launch faults on a 32-bit overflow in its first work-item.  At `N = 2`, on
the `float` values `A = [16777216, 1, 0, 0]`, `B = [1, 0, 1, 0]`, the kernel
stores `16777216` in `Result[0]` where the matrix product has
`16777216 * 1 + 1 * 1 = 16777217`, which no `float` holds. -/
theorem launch_transpose_product_fails :
    launch 46341 (runContext (zeros 2147488281) 46341 (zeros 2147488281)
      (zeros 2147488281) 0) = .error .overflow ∧
    launch 2 (runContext (([16777216, 1, 0, 0] : List Int).map F32.finite) 2
        (([1, 0, 1, 0] : List Int).map F32.finite)
        (([0, 0, 0, 0] : List Int).map F32.finite) 0) =
      .ok (runContext (([16777216, 1, 0, 0] : List Int).map F32.finite) 2
        (([1, 0, 1, 0] : List Int).map F32.finite)
        (([16777216, 0, 0, 0] : List Int).map F32.finite) 0) ∧
    (toMatrix 2 ([16777216, 1, 0, 0] : List Int) *
      toMatrix 2 ([1, 0, 1, 0] : List Int)).transpose 0 0 = 16777217 ∧
    toMatrix 2 ([16777216, 0, 0, 0] : List Int) 0 0 = 16777216 ∧
    toMatrix 2 ([16777216, 0, 0, 0] : List Int) ≠
      (toMatrix 2 ([16777216, 1, 0, 0] : List Int) *
        toMatrix 2 ([1, 0, 1, 0] : List Int)).transpose := by
  have hprod : (toMatrix 2 ([16777216, 1, 0, 0] : List Int) *
      toMatrix 2 ([1, 0, 1, 0] : List Int)).transpose 0 0 = 16777217 := by
    rw [Matrix.transpose_apply, Matrix.mul_apply, Fin.sum_univ_two]
    rfl
  refine ⟨launch_46341 (zeros 2147488281) (zeros 2147488281) (zeros 2147488281)
    (zeros_length _) (zeros_length _) (zeros_length _) 0, rfl, hprod, rfl, ?_⟩
  intro h
  have h1 := congrFun (congrFun h 0) 0
  rw [hprod] at h1
  have h2 : toMatrix 2 ([16777216, 0, 0, 0] : List Int) 0 0 = 16777216 := rfl
  rw [h2] at h1
  omega

/-! ## Every cell written once -/

/-- C3, amended: for a dimension `N ≤ 46340` and buffers of length `N * N`, a full
launch returns, and its record shows the writes it made: for `rowA = 0, ..., N - 1`
and within each for `colB = 0, ..., N - 1`, one write at `colB * N + rowA`.  These
`N * N` written indices are the numbers `0, ..., N * N - 1` in another order
(the write-index map is a bijection onto `[0, N * N)`), so each cell of `Result`
is written exactly once. -/
theorem launch_writes_each_cell_once {α : Type} [Zero α] [Add α] [Mul α] (N : Nat)
    (A B R : List α) (p : Int) (hN : N ≤ 46340) (hA : A.length = N * N)
    (hB : B.length = N * N) (hR : R.length = N * N) :
    ∃ (R1 : List α) (log : List Event),
      launchLog N (runContext A (N : Int) B R p) =
        .ok (runContext A (N : Int) B R1 p, log) ∧
      launch N (runContext A (N : Int) B R p) = .ok (runContext A (N : Int) B R1 p) ∧
      writes log = ((List.range N).flatMap fun rowA => (List.range N).map fun colB =>
        ((colB * N + rowA : Nat) : Int)) ∧
      (writes log).Perm ((List.range (N * N)).map fun k => ((k : Nat) : Int)) ∧
      (writes log).length = N * N ∧
      ∀ k : Nat, k < N * N → (writes log).count (k : Int) = 1 := by
  obtain ⟨R1, hrun, _, _⟩ := launch_ok A B R p N hN hA hB hR
  have herase := launchLog_fst N (runContext A (N : Int) B R p)
  rw [hrun] at herase
  obtain ⟨log, hlog⟩ := map_fst_eq_ok _ _ herase
  have hw := (launchSeqLog_eq_ok (N * N) _ (runContext A (N : Int) B R p) [] _ log
    hA hB hR hlog).1
  have hsz : (runContext A (N : Int) B R p).size = (N : Int) := rfl
  have hlist : writes log = ((List.range N).flatMap fun rowA => (List.range N).map
      fun colB => ((colB * N + rowA : Nat) : Int)) := by
    rw [hw, hsz, Int.toNat_ofNat, List.flatMap_map]
    have hnil : writes [] = [] := rfl
    rw [hnil, List.nil_append]
    apply List.flatMap_congr
    intro r _
    apply List.map_congr_left
    intro c _
    push_cast
    rfl
  have hcast : writes log = (((List.range N).flatMap fun rowA => (List.range N).map
      fun colB => colB * N + rowA).map fun k => ((k : Nat) : Int)) := by
    rw [hlist, List.map_flatMap]
    apply List.flatMap_congr
    intro r _
    rw [List.map_map]
    rfl
  have hperm : (writes log).Perm ((List.range (N * N)).map fun k => ((k : Nat) : Int)) := by
    rw [hcast]
    exact (flat_indices_perm N).map _
  have hnodup : ((List.range (N * N)).map fun k => ((k : Nat) : Int)).Nodup :=
    (List.nodup_range _).map (fun a b h => by exact_mod_cast h)
  refine ⟨R1, log, hlog, hrun, hlist, hperm, ?_, ?_⟩
  · rw [hperm.length_eq, List.length_map, List.length_range]
  · intro k hk
    rw [hperm.count_eq]
    exact List.count_eq_one_of_mem hnodup
      (List.mem_map.mpr ⟨k, List.mem_range.mpr hk, rfl⟩)

/-- C3, witness: dimension 2, where the launch writes the cells 0, 2, 1, 3 in that
order. -/
theorem launch_writes_each_cell_once_witness :
    (2 ≤ 46340 ∧ ([1, 2, 3, 4] : List Int).length = 2 * 2 ∧
      ([5, 6, 7, 8] : List Int).length = 2 * 2 ∧ ([9, 9, 9, 9] : List Int).length = 2 * 2) ∧
    (∃ (R1 : List Int) (log : List Event),
      launchLog 2 (runContext [1, 2, 3, 4] ((2 : Nat) : Int) [5, 6, 7, 8] [9, 9, 9, 9] 7) =
        .ok (runContext [1, 2, 3, 4] ((2 : Nat) : Int) [5, 6, 7, 8] R1 7, log) ∧
      launch 2 (runContext [1, 2, 3, 4] ((2 : Nat) : Int) [5, 6, 7, 8] [9, 9, 9, 9] 7) =
        .ok (runContext [1, 2, 3, 4] ((2 : Nat) : Int) [5, 6, 7, 8] R1 7) ∧
      writes log = ((List.range 2).flatMap fun rowA => (List.range 2).map fun colB =>
        ((colB * 2 + rowA : Nat) : Int)) ∧
      (writes log).Perm ((List.range (2 * 2)).map fun k => ((k : Nat) : Int)) ∧
      (writes log).length = 2 * 2 ∧
      ∀ k : Nat, k < 2 * 2 → (writes log).count (k : Int) = 1) ∧
    (launchLog 2 (runContext [1, 2, 3, 4] 2 [5, 6, 7, 8] [9, 9, 9, 9] 7 : This Int)).map
        (fun tl => (tl.1.kernelResults, writes tl.2)) =
      .ok ([19, 43, 22, 50], [0, 2, 1, 3]) :=
  ⟨⟨by decide, rfl, rfl, rfl⟩,
    launch_writes_each_cell_once 2 [1, 2, 3, 4] [5, 6, 7, 8] [9, 9, 9, 9] 7 (by decide)
      rfl rfl rfl,
    rfl⟩

/-- C3 as stated fails at `N = 46341`: the write index of `rowA = colB = 46340`
overflows 32 bits, the last cell `N * N - 1` of `Result` is the write index of no
pair, and the full launch, on buffers of `N * N` zeros, faults on an overflow and
leaves no record in which each cell is written once. -/
theorem launch_writes_fails_46341 :
    indexResult 46341 46340 46340 = .error .overflow ∧
    (¬ ∃ rowA colB : Nat, rowA < 46341 ∧ colB < 46341 ∧
      indexResult 46341 (rowA : Int) (colB : Int) = .ok 2147488280) ∧
    launch 46341 (runContext (zeros 2147488281) 46341 (zeros 2147488281)
      (zeros 2147488281) 0) = .error .overflow ∧
    launchLog 46341 (runContext (zeros 2147488281) 46341 (zeros 2147488281)
      (zeros 2147488281) 0) = .error .overflow := by
  have hl := launch_46341 (zeros 2147488281) (zeros 2147488281) (zeros 2147488281)
    (zeros_length _) (zeros_length _) (zeros_length _) 0
  refine ⟨rfl, ?_, hl, ?_⟩
  · rintro ⟨rowA, colB, _, _, h⟩
    have h1 := (indexA_eq_ok _ _ _ _ h).2.2.2.2
    unfold INT_MAX at h1
    omega
  · apply map_fst_eq_error
    rw [@launchLog_fst Int _ _ _ 46341 (runContext (zeros 2147488281) 46341
      (zeros 2147488281) (zeros 2147488281) 0), hl]

/-! ## Identity and zero -/

/-- A sum of products against a column of the identity picks one factor, when
the factors add to zero and to themselves as finite values do. -/
theorem sumUpTo_kronecker {α : Type} [Zero α] [One α] [Add α] [Mul α] (S : α → Prop)
    (h0 : ∀ a, S a → (0 : α) + a * 0 = 0) (h1 : ∀ a, S a → (0 : α) + a * 1 = a)
    (h2 : ∀ a a1, S a → S a1 → a + a1 * 0 = a)
    (a d : Nat → α) (c : Nat) :
    ∀ n : Nat, (∀ i, i < n → S (a i)) → (∀ i, i < n → d i = if i = c then 1 else 0) →
      sumUpTo (fun i => a i * d i) n = if c < n then a c else 0 := by
  intro n
  induction n with
  | zero =>
    intro _ _
    rfl
  | succ n ih =>
    intro hS hd
    have hrec : sumUpTo (fun i => a i * d i) (n + 1) =
        sumUpTo (fun i => a i * d i) n + a n * d n := rfl
    rw [hrec, ih (fun i hi => hS i (by omega)) (fun i hi => hd i (by omega)),
      hd n (by omega)]
    by_cases hnc : n = c
    · subst hnc
      rw [if_neg (by omega), if_pos rfl, if_pos (by omega)]
      exact h1 _ (hS n (by omega))
    · rw [if_neg hnc]
      by_cases hlt : c < n
      · rw [if_pos hlt, if_pos (by omega)]
        exact h2 _ _ (hS c (by omega)) (hS n (by omega))
      · rw [if_neg hlt, if_neg (by omega)]
        exact h0 _ (hS n (by omega))

/-- C6, amended: for a dimension `N ≤ 46340` and an `A` of length `N * N` whose
entries behave as finite values do (`0 + a * 0 = 0`, `0 + a * 1 = a` and
`a + a1 * 0 = a` for entries `a`, `a1` of `A`, which in `float` excludes the
infinities and NaN), when `B` is the identity matrix a full launch returns with
`Result[colB * N + rowA] = A[rowA * N + colB]` for all `rowA, colB < N`. -/
theorem launch_identity {α : Type} [Zero α] [One α] [Add α] [Mul α] (N : Nat)
    (A B R : List α) (p : Int)
    (h0 : ∀ a ∈ A, (0 : α) + a * 0 = 0) (h1 : ∀ a ∈ A, (0 : α) + a * 1 = a)
    (h2 : ∀ a ∈ A, ∀ a1 ∈ A, a + a1 * 0 = a)
    (hN : N ≤ 46340) (hA : A.length = N * N) (hB : B.length = N * N)
    (hR : R.length = N * N)
    (hI : ∀ i j, i < N → j < N → B[i * N + j]? = some (if i = j then 1 else 0)) :
    ∃ R1 : List α,
      launch N (runContext A (N : Int) B R p) = .ok (runContext A (N : Int) B R1 p) ∧
      ∀ rowA colB, rowA < N → colB < N → R1[colB * N + rowA]? = A[rowA * N + colB]? := by
  obtain ⟨R1, hrun, _, hget⟩ := launch_ok A B R p N hN hA hB hR
  refine ⟨R1, hrun, ?_⟩
  intro rowA colB hr hc
  obtain ⟨e1, e2⟩ := (flat_eq_iff N rowA colB _ hr).mp rfl
  have hlt := flat_lt N rowA colB hr hc
  have hdot : dot A B N rowA colB = A.getD (rowA * N + colB) 0 := by
    unfold dot
    rw [sumUpTo_kronecker (fun a => a ∈ A) h0 h1 (fun a a1 ha ha1 => h2 a ha a1 ha1)
      (fun i => A.getD (rowA * N + i) 0) (fun i => B.getD (i * N + colB) 0) colB N,
      if_pos hc]
    · intro i hi
      have hlti := flat_lt N rowA i hr hi
      rw [List.getD_eq_getElem?_getD, List.getElem?_eq_getElem (by omega)]
      exact List.getElem_mem _
    · intro i hi
      rw [List.getD_eq_getElem?_getD, hI i colB hi hc]
      rfl
  rw [hget _ (flat_lt N colB rowA hc hr), e1, e2, hdot,
    List.getD_eq_getElem?_getD, List.getElem?_eq_getElem (by omega)]
  rfl

/-- C6, witness: dimension 2 on the `float` values `A = [1, 2, 3, 4]`,
`B = [1, 0, 0, 1]`. -/
theorem launch_identity_witness :
    ((∀ a ∈ ([1, 2, 3, 4] : List Int).map F32.finite, (0 : F32) + a * 0 = 0) ∧
      (∀ a ∈ ([1, 2, 3, 4] : List Int).map F32.finite, (0 : F32) + a * 1 = a) ∧
      (∀ a ∈ ([1, 2, 3, 4] : List Int).map F32.finite,
        ∀ a1 ∈ ([1, 2, 3, 4] : List Int).map F32.finite, a + a1 * 0 = a) ∧
      2 ≤ 46340 ∧ (([1, 2, 3, 4] : List Int).map F32.finite).length = 2 * 2 ∧
      (([1, 0, 0, 1] : List Int).map F32.finite).length = 2 * 2 ∧
      (([0, 0, 0, 0] : List Int).map F32.finite).length = 2 * 2 ∧
      ∀ i j : Nat, i < 2 → j < 2 →
        (([1, 0, 0, 1] : List Int).map F32.finite)[i * 2 + j]? =
          some (if i = j then 1 else 0)) ∧
    ∃ R1 : List F32,
      launch 2 (runContext (([1, 2, 3, 4] : List Int).map F32.finite) ((2 : Nat) : Int)
          (([1, 0, 0, 1] : List Int).map F32.finite)
          (([0, 0, 0, 0] : List Int).map F32.finite) 7) =
        .ok (runContext (([1, 2, 3, 4] : List Int).map F32.finite) ((2 : Nat) : Int)
          (([1, 0, 0, 1] : List Int).map F32.finite) R1 7) ∧
      ∀ rowA colB, rowA < 2 → colB < 2 →
        R1[colB * 2 + rowA]? = (([1, 2, 3, 4] : List Int).map F32.finite)[rowA * 2 + colB]? :=
  ⟨⟨by decide, by decide, by decide, by decide, rfl, rfl, rfl,
      fun i j hi hj => by interval_cases i <;> interval_cases j <;> rfl⟩,
    launch_identity 2 _ _ _ 7 (by decide) (by decide) (by decide) (by decide) rfl rfl rfl
      (fun i j hi hj => by interval_cases i <;> interval_cases j <;> rfl)⟩

/-- C6 as stated fails twice.  At `N = 46341`, with `A` of `N * N` zeros and `B`
the identity, the full launch faults on a 32-bit overflow.  At `N = 2`, on the
`float` values `A = [∞, 2, 3, 4]` with `B` the identity, `∞ * 0` is NaN and the
kernel stores NaN in `Result[2]` where `A[1] = 2`. -/
theorem launch_identity_fails :
    ((zeros 2147488281).length = 46341 * 46341 ∧
      (identityBuf 46341).length = 46341 * 46341 ∧
      (∀ i j, i < 46341 → j < 46341 →
        (identityBuf 46341)[i * 46341 + j]? = some (if i = j then 1 else 0)) ∧
      launch 46341 (runContext (zeros 2147488281) 46341 (identityBuf 46341)
        (zeros 2147488281) 0) = .error .overflow) ∧
    ((∀ i j : Nat, i < 2 → j < 2 →
        ([1, 0, 0, 1] : List F32)[i * 2 + j]? = some (if i = j then 1 else 0)) ∧
      launch 2 (runContext [F32.infinity false, F32.finite 2, F32.finite 3, F32.finite 4] 2
          ([1, 0, 0, 1] : List F32) [0, 0, 0, 0] 0) =
        .ok (runContext [F32.infinity false, F32.finite 2, F32.finite 3, F32.finite 4] 2
          ([1, 0, 0, 1] : List F32)
          [F32.infinity false, F32.finite 3, F32.nan, F32.finite 4] 0) ∧
      ([F32.infinity false, F32.finite 3, F32.nan, F32.finite 4] : List F32)[1 * 2 + 0]? ≠
        ([F32.infinity false, F32.finite 2, F32.finite 3, F32.finite 4] : List F32)[0 * 2 + 1]?) := by
  refine ⟨⟨zeros_length _, identityBuf_length _, fun i j => identityBuf_spec 46341 i j,
    launch_46341 (zeros 2147488281) (identityBuf 46341) (zeros 2147488281)
      (zeros_length _) (identityBuf_length _) (zeros_length _) 0⟩, ?_, rfl, by decide⟩
  intro i j hi hj
  interval_cases i <;> interval_cases j <;> rfl

/-- A sum of products whose left factors are zero is zero, when the right
factors multiply zero into a zero. -/
theorem sumUpTo_zero_mul {α : Type} [Zero α] [Add α] [Mul α] (a d : Nat → α) :
    ∀ n : Nat, (∀ i, i < n → a i = 0) → (∀ i, i < n → (0 : α) + 0 * d i = 0) →
      sumUpTo (fun i => a i * d i) n = 0 := by
  intro n
  induction n with
  | zero =>
    intro _ _
    rfl
  | succ n ih =>
    intro ha hd
    have hrec : sumUpTo (fun i => a i * d i) (n + 1) =
        sumUpTo (fun i => a i * d i) n + a n * d n := rfl
    rw [hrec, ih (fun i hi => ha i (by omega)) (fun i hi => hd i (by omega)),
      ha n (by omega)]
    exact hd n (by omega)

/-- C7, amended: for a dimension `N ≤ 46340`, when every entry of `A` is 0 and
every entry `b` of `B` has `0 + 0 * b = 0` (which in `float` says that `b` is
neither an infinity nor NaN), a full launch returns with every entry of
`Result` equal to 0. -/
theorem launch_zero {α : Type} [Zero α] [Add α] [Mul α] (N : Nat) (A B R : List α)
    (p : Int) (hfin : ∀ b ∈ B, (0 : α) + 0 * b = 0)
    (hN : N ≤ 46340) (hA : A.length = N * N) (hB : B.length = N * N)
    (hR : R.length = N * N) (hZ : ∀ k, k < N * N → A[k]? = some 0) :
    ∃ R1 : List α,
      launch N (runContext A (N : Int) B R p) = .ok (runContext A (N : Int) B R1 p) ∧
      R1.length = N * N ∧
      ∀ q, q < N * N → R1[q]? = some 0 := by
  obtain ⟨R1, hrun, hlen, hget⟩ := launch_ok A B R p N hN hA hB hR
  refine ⟨R1, hrun, hlen, ?_⟩
  intro q hq
  have hNpos : 0 < N := by
    rcases Nat.eq_zero_or_pos N with h | h
    · subst h; omega
    · exact h
  have hr : q % N < N := Nat.mod_lt q hNpos
  have hc : q / N < N := Nat.div_lt_of_lt_mul hq
  have hdot : dot A B N (q % N) (q / N) = 0 := by
    unfold dot
    apply sumUpTo_zero_mul (fun i => A.getD (q % N * N + i) 0)
      (fun i => B.getD (i * N + q / N) 0)
    · intro i hi
      have hlti := flat_lt N (q % N) i hr hi
      rw [List.getD_eq_getElem?_getD, hZ _ hlti]
      rfl
    · intro i hi
      have hlti := flat_lt N i (q / N) hi hc
      apply hfin
      rw [List.getD_eq_getElem?_getD, List.getElem?_eq_getElem (by omega)]
      exact List.getElem_mem _
  rw [hget q hq, hdot]

/-- C7, witness: dimension 2 on the `float` values `A = [0, 0, 0, 0]`,
`B = [5, -6, 7, 8]`. -/
theorem launch_zero_witness :
    ((∀ b ∈ ([5, -6, 7, 8] : List Int).map F32.finite, (0 : F32) + 0 * b = 0) ∧
      2 ≤ 46340 ∧ (([0, 0, 0, 0] : List Int).map F32.finite).length = 2 * 2 ∧
      (([5, -6, 7, 8] : List Int).map F32.finite).length = 2 * 2 ∧
      (([9, 9, 9, 9] : List Int).map F32.finite).length = 2 * 2 ∧
      ∀ k : Nat, k < 2 * 2 → (([0, 0, 0, 0] : List Int).map F32.finite)[k]? = some 0) ∧
    ∃ R1 : List F32,
      launch 2 (runContext (([0, 0, 0, 0] : List Int).map F32.finite) ((2 : Nat) : Int)
          (([5, -6, 7, 8] : List Int).map F32.finite)
          (([9, 9, 9, 9] : List Int).map F32.finite) 7) =
        .ok (runContext (([0, 0, 0, 0] : List Int).map F32.finite) ((2 : Nat) : Int)
          (([5, -6, 7, 8] : List Int).map F32.finite) R1 7) ∧
      R1.length = 2 * 2 ∧
      ∀ q, q < 2 * 2 → R1[q]? = some 0 :=
  ⟨⟨by decide, by decide, rfl, rfl, rfl,
      fun k hk => by interval_cases k <;> rfl⟩,
    launch_zero 2 _ _ _ 7 (by decide) (by decide) rfl rfl rfl
      (fun k hk => by interval_cases k <;> rfl)⟩

/-- C7 as stated fails twice.  At `N = 46341`, with `A` of `N * N` zeros, the full
launch faults on a 32-bit overflow.  At `N = 2`, on the `float` values
`A = [0, 0, 0, 0]`, `B = [∞, 6, 7, 8]`, `0 * ∞` is NaN and the kernel leaves
`Result = [NaN, NaN, 0, 0]`. -/
theorem launch_zero_fails :
    ((zeros 2147488281).length = 46341 * 46341 ∧ (ones 2147488281).length = 46341 * 46341 ∧
      (∀ k, k < 46341 * 46341 → (zeros 2147488281)[k]? = some 0) ∧
      launch 46341 (runContext (zeros 2147488281) 46341 (ones 2147488281)
        (ones 2147488281) 0) = .error .overflow) ∧
    ((∀ k : Nat, k < 2 * 2 → ([0, 0, 0, 0] : List F32)[k]? = some 0) ∧
      launch 2 (runContext ([0, 0, 0, 0] : List F32) 2
          [F32.infinity false, F32.finite 6, F32.finite 7, F32.finite 8] [0, 0, 0, 0] 0) =
        .ok (runContext ([0, 0, 0, 0] : List F32) 2
          [F32.infinity false, F32.finite 6, F32.finite 7, F32.finite 8]
          [F32.nan, F32.nan, 0, 0] 0) ∧
      ([F32.nan, F32.nan, 0, 0] : List F32)[0]? ≠ some 0) := by
  have hones : (ones 2147488281).length = 2147488281 := by
    unfold ones
    rw [List.length_replicate]
  refine ⟨⟨zeros_length _, hones, ?_, launch_46341 (zeros 2147488281) (ones 2147488281)
    (ones 2147488281) (zeros_length _) hones hones 0⟩, ?_, rfl, by decide⟩
  · intro k hk
    unfold zeros
    rw [List.getElem?_replicate, if_pos hk]
  · intro k hk
    interval_cases k <;> rfl

/-! ## Accesses inside the buffers -/

/-- C12, amended: for a dimension `1 ≤ N ≤ 46340`, buffers of length `N * N` and a
row `rowA < N`, every index the kernel computes for `i, colB < N` is computed
without overflow and is the index of a cell of its buffer (`rowA * N + i` in
`A`, `i * N + colB` in `B`, `colB * N + rowA` in `Result`, all below `N * N`), so
the checked read or write at it succeeds; the work-item returns, never taking
the out-of-bounds branch, and every read and write of its record is inside
`[0, N * N)`. -/
theorem accesses_in_bounds {α : Type} [Zero α] [Add α] [Mul α] (N rowA : Nat)
    (A B R : List α) (p : Int) (hN1 : 1 ≤ N) (hN : N ≤ 46340) (hrow : rowA < N)
    (hA : A.length = N * N) (hB : B.length = N * N) (hR : R.length = N * N) :
    (∀ i colB, i < N → colB < N →
      (rowA * N + i < N * N ∧
        indexA (N : Int) (rowA : Int) (i : Int) = .ok ((rowA * N + i : Nat) : Int) ∧
        ∃ a, load A ((rowA * N + i : Nat) : Int) = .ok a) ∧
      (i * N + colB < N * N ∧
        indexB (N : Int) (i : Int) (colB : Int) = .ok ((i * N + colB : Nat) : Int) ∧
        ∃ b, load B ((i * N + colB : Nat) : Int) = .ok b) ∧
      (colB * N + rowA < N * N ∧
        indexResult (N : Int) (rowA : Int) (colB : Int) =
          .ok ((colB * N + rowA : Nat) : Int) ∧
        ∀ v : α, ∃ R1, store R ((colB * N + rowA : Nat) : Int) v = .ok R1)) ∧
    (∃ (R1 : List α) (log : List Event),
      runLog A (N : Int) B R p (rowA : Int) = .ok (runContext A (N : Int) B R1 p, log) ∧
      run A (N : Int) B R p (rowA : Int) = .ok (runContext A (N : Int) B R1 p) ∧
      (∀ e ∈ log, Event.inBounds (N * N) e) ∧
      writes log = (List.range N).map fun colB => ((colB * N + rowA : Nat) : Int)) ∧
    run A (N : Int) B R p (rowA : Int) ≠ .error .outOfBounds := by
  have hN0 : 0 < N := hN1
  have hsq := sq_le_of_le N hN
  obtain ⟨R1, hrun, _, _⟩ := run_ok A B R p N rowA hN hA hB hR hrow
  refine ⟨?_, ?_, ?_⟩
  · intro i colB hi hc
    have h1 := flat_lt N rowA i hrow hi
    have h2 := flat_lt N i colB hi hc
    have h3 := flat_lt N colB rowA hc hrow
    exact ⟨⟨h1, indexA_ofNat N rowA i (by omega), load_ofNat_ok A _ (by omega)⟩,
      ⟨h2, indexB_ofNat N i colB (by omega), load_ofNat_ok B _ (by omega)⟩,
      ⟨h3, indexResult_ofNat N rowA colB (by omega),
        fun v => ⟨_, store_ofNat R _ v (by omega)⟩⟩⟩
  · have herase := runLog_fst A B R (N : Int) p (rowA : Int)
    rw [hrun] at herase
    obtain ⟨log, hlog⟩ := map_fst_eq_ok _ _ herase
    obtain ⟨_, hw, hin, _⟩ := runLog_eq_ok A B R (N : Int) p (rowA : Int) (N * N) _ log
      hA hB hR hlog
    refine ⟨R1, log, hlog, hrun, hin, ?_⟩
    rw [hw, Int.toNat_ofNat]
    apply List.map_congr_left
    intro c _
    push_cast
    rfl
  · rw [hrun]
    intro hcon
    cases hcon

/-- C12, witness: dimension 2, row 1. -/
theorem accesses_in_bounds_witness :
    (1 ≤ 2 ∧ 2 ≤ 46340 ∧ 1 < 2 ∧ ([1, 2, 3, 4] : List Int).length = 2 * 2 ∧
      ([5, 6, 7, 8] : List Int).length = 2 * 2 ∧ ([0, 0, 0, 0] : List Int).length = 2 * 2) ∧
    ((∀ i colB : Nat, i < 2 → colB < 2 →
      (1 * 2 + i < 2 * 2 ∧
        indexA ((2 : Nat) : Int) ((1 : Nat) : Int) (i : Int) = .ok ((1 * 2 + i : Nat) : Int) ∧
        ∃ a, load ([1, 2, 3, 4] : List Int) ((1 * 2 + i : Nat) : Int) = .ok a) ∧
      (i * 2 + colB < 2 * 2 ∧
        indexB ((2 : Nat) : Int) (i : Int) (colB : Int) = .ok ((i * 2 + colB : Nat) : Int) ∧
        ∃ b, load ([5, 6, 7, 8] : List Int) ((i * 2 + colB : Nat) : Int) = .ok b) ∧
      (colB * 2 + 1 < 2 * 2 ∧
        indexResult ((2 : Nat) : Int) ((1 : Nat) : Int) (colB : Int) =
          .ok ((colB * 2 + 1 : Nat) : Int) ∧
        ∀ v : Int, ∃ R1, store ([0, 0, 0, 0] : List Int) ((colB * 2 + 1 : Nat) : Int) v =
          .ok R1)) ∧
    (∃ (R1 : List Int) (log : List Event),
      runLog [1, 2, 3, 4] ((2 : Nat) : Int) [5, 6, 7, 8] [0, 0, 0, 0] 7 ((1 : Nat) : Int) =
        .ok (runContext [1, 2, 3, 4] ((2 : Nat) : Int) [5, 6, 7, 8] R1 7, log) ∧
      run [1, 2, 3, 4] ((2 : Nat) : Int) [5, 6, 7, 8] [0, 0, 0, 0] 7 ((1 : Nat) : Int) =
        .ok (runContext [1, 2, 3, 4] ((2 : Nat) : Int) [5, 6, 7, 8] R1 7) ∧
      (∀ e ∈ log, Event.inBounds (2 * 2) e) ∧
      writes log = (List.range 2).map fun colB : Nat => ((colB * 2 + 1 : Nat) : Int)) ∧
    run ([1, 2, 3, 4] : List Int) ((2 : Nat) : Int) [5, 6, 7, 8] [0, 0, 0, 0] 7
      ((1 : Nat) : Int) ≠ .error .outOfBounds) :=
  ⟨⟨by decide, by decide, by decide, rfl, rfl, rfl⟩,
    accesses_in_bounds 2 1 [1, 2, 3, 4] [5, 6, 7, 8] [0, 0, 0, 0] 7 (by decide) (by decide)
      (by decide) rfl rfl rfl⟩

/-- C12 as stated fails at `N = 46341`: for `i = 46340`, `colB = 41708` the index
`i * N + colB` of `B` is `2^31`, which the kernel cannot compute in `int`, so it
is not an index inside `[0, N * N)` that it reads; the work-item of row 2, on
buffers of `N * N` zeros, ends there on an overflow and leaves no record of
accesses inside the buffers. -/
theorem accesses_in_bounds_fails_46341 :
    ((zeros 2147488281).length = 46341 * 46341 ∧ 1 ≤ 46341 ∧ 2 < 46341 ∧
      46340 < 46341 ∧ 41708 < 46341) ∧
    (46340 : Int) * 46341 + 41708 = 2 ^ 31 ∧
    indexB 46341 46340 41708 = .error .overflow ∧
    run (zeros 2147488281) 46341 (zeros 2147488281) (zeros 2147488281) 0 2 =
      .error .overflow ∧
    runLog (zeros 2147488281) 46341 (zeros 2147488281) (zeros 2147488281) 0 2 =
      .error .overflow := by
  have h : run (zeros 2147488281) 46341 (zeros 2147488281) (zeros 2147488281) 0 2 =
      .error .overflow := by
    have h1 := run_46341 (zeros 2147488281) (zeros 2147488281) (zeros 2147488281)
      (zeros_length _) (zeros_length _) (zeros_length _) 2 (by omega) 0
    rw [Nat.cast_ofNat] at h1
    exact h1
  refine ⟨⟨zeros_length _, by omega, by omega, by omega, by omega⟩, by norm_num, rfl, h, ?_⟩
  apply map_fst_eq_error
  rw [@runLog_fst Int _ _ _ (zeros 2147488281) (zeros 2147488281) (zeros 2147488281)
    46341 0 2, h]

end GeneratedOpenCL
